import Mathlib

/-!
Verification of the vi-tg media acquisition and local cache pipeline.

The definitions below are a shallow embedding of the Go source:
`downloadStickerFile`, `downloadPhotoFile`, `downloadFileWithLocation`,
`downloadVideoFile`, `detectImageFormat`, `generateVideoPreview` (all in the
auth package) and `getLocationMap`, `generateLocationMap`,
`generateFallbackMap`, `latLngToTileNumbers`, `latLngToPixel`,
`addLocationMarker` (backend/server.go).

Filesystem state is an association list from paths to byte lists; the
downloads additionally return the list of file operations they performed, in
order, so that statements about temp-file/rename discipline can be made.
Bytes are modelled as `Nat`, file sizes as list lengths.  The network is a
parameter: a `Remote` maps each ranged-read request to the response the
Telegram side returned.  Loops that the Go code runs unboundedly take a fuel
argument; `FetchOut.fuelOut` marks fuel exhaustion and is distinct from the
failure result of the code.
-/

namespace ViTg

/-- A file operation performed by the download code, in program order. -/
inductive FileOp where
  | create (p : String)
  | write (p : String) (bytes : List Nat)
  | rename (src dst : String)
  | remove (p : String)
deriving DecidableEq, Repr

/-- Filesystem: association list from path to file content. -/
def Fs := List (String × List Nat)

/-- Content of the file at `p`, if it exists (`os.Stat` / `os.ReadFile`). -/
def lookupFs : Fs → String → Option (List Nat)
  | [], _ => none
  | (q, b) :: rest, p => if q = p then some b else lookupFs rest p

/-- Write content `b` at path `p`, replacing any previous entry. -/
def setFs : Fs → String → List Nat → Fs
  | [], p, b => [(p, b)]
  | (q, c) :: rest, p, b => if q = p then (p, b) :: rest else (q, c) :: setFs rest p b

/-- Delete the entry at path `p` (`os.Remove`). -/
def removeFs : Fs → String → Fs
  | [], _ => []
  | (q, c) :: rest, p => if q = p then removeFs rest p else (q, c) :: removeFs rest p

/-- Replay one file operation on a filesystem. -/
def applyOp (fs : Fs) : FileOp → Fs
  | .create p => setFs fs p []
  | .write p b => setFs fs p ((lookupFs fs p).getD [] ++ b)
  | .rename src dst =>
      match lookupFs fs src with
      | some b => setFs (removeFs fs src) dst b
      | none => fs
  | .remove p => removeFs fs p

/-- Replay a list of file operations, in order. -/
def applyOps (fs : Fs) (ops : List FileOp) : Fs := ops.foldl applyOp fs

/-- A ranged read issued by the fetch loop: either `upload.getFile` against
the original location, or `upload.getCdnFile` against the CDN with a token. -/
inductive Req where
  | main (off lim : Nat)
  | cdn (tok off lim : Nat)
deriving DecidableEq, Repr

/-- Response of `upload.getFile`: a data chunk (`tg.UploadFile`), a CDN
redirect carrying a token (`tg.UploadFileCDNRedirect`), a transport error, or
an unrecognized response shape (the `default` case of the type switch). -/
inductive GetFileResp where
  | file (bytes : List Nat)
  | redirect (tok : Nat)
  | err
  | other

/-- Response of `upload.getCdnFile`: a data chunk (`tg.UploadCDNFile`), a
transport error, or an unrecognized response shape. -/
inductive CDNResp where
  | file (bytes : List Nat)
  | err
  | other

/-- The remote side: what each ranged read returns.  `getFile off lim` is the
response to a main-endpoint read at `off`, `getCDNFile tok off lim` the
response to a CDN read with token `tok`. -/
structure Remote where
  getFile : Nat → Nat → GetFileResp
  getCDNFile : Nat → Nat → Nat → CDNResp

/-- Outcome of the chunked fetch loop.  `done data` is normal termination
with the accumulated bytes, `failed` is any error branch of the Go loop
(which removes the partially written file), `fuelOut` is exhaustion of the
embedding's fuel (not a behavior of the code). -/
inductive FetchOut where
  | done (data : List Nat)
  | failed
  | fuelOut
deriving DecidableEq, Repr

/-- The chunked fetch loop shared by `downloadStickerFile`,
`downloadFileWithLocation` and `downloadVideoFile` (the three Go loops are
textually identical up to the target path and the per-kind `chunkSize`:
512 KiB for stickers/images, 1 MiB for video).  Each iteration issues a main
ranged read at the current offset; a data chunk is written to `path` and the
loop finishes on an empty or short chunk; a CDN redirect triggers a single
immediate CDN read with the returned token at the same offset, handled by the
same rules; an error or unrecognized response removes `path` and fails.
Returns the outcome, the requests issued, and the file operations performed. -/
def fetchLoop (rem : Remote) (path : String) (cs : Nat) :
    Nat → Nat → List Nat → FetchOut × List Req × List FileOp
  | 0, _, _ => (.fuelOut, [], [])
  | fuel + 1, off, acc =>
    match rem.getFile off cs with
    | .file b =>
        if b.length = 0 then (.done acc, [.main off cs], [])
        else if b.length < cs then (.done (acc ++ b), [.main off cs], [.write path b])
        else
          let r := fetchLoop rem path cs fuel (off + b.length) (acc ++ b)
          (r.1, .main off cs :: r.2.1, .write path b :: r.2.2)
    | .redirect tok =>
        match rem.getCDNFile tok off cs with
        | .file b =>
            if b.length = 0 then (.done acc, [.main off cs, .cdn tok off cs], [])
            else if b.length < cs then
              (.done (acc ++ b), [.main off cs, .cdn tok off cs], [.write path b])
            else
              let r := fetchLoop rem path cs fuel (off + b.length) (acc ++ b)
              (r.1, .main off cs :: .cdn tok off cs :: r.2.1, .write path b :: r.2.2)
        | .err => (.failed, [.main off cs, .cdn tok off cs], [.remove path])
        | .other => (.failed, [.main off cs, .cdn tok off cs], [.remove path])
    | .err => (.failed, [.main off cs], [.remove path])
    | .other => (.failed, [.main off cs], [.remove path])

/-- `detectImageFormat`: sniff the container format from the first bytes of
the file content.  The Go code reads up to 12 bytes into a zero-initialized
buffer and returns "" when fewer than 8 bytes could be read; the buffer
length is always 12, so the per-format `len(header) >= k` guards are always
true and bytes past the end of a short file are the zero padding of the
buffer (`List.getD _ _ 0`). -/
def detectImageFormat (content : List Nat) : Option String :=
  if content.length < 8 then none
  else
    let hdr := fun i => content.getD i 0
    if hdr 0 = 0xFF ∧ hdr 1 = 0xD8 then some ".jpg"
    else if hdr 0 = 0x89 ∧ hdr 1 = 0x50 ∧ hdr 2 = 0x4E ∧ hdr 3 = 0x47 ∧
        hdr 4 = 0x0D ∧ hdr 5 = 0x0A ∧ hdr 6 = 0x1A ∧ hdr 7 = 0x0A then some ".png"
    else if hdr 0 = 0x47 ∧ hdr 1 = 0x49 ∧ hdr 2 = 0x46 ∧ hdr 3 = 0x38 then some ".gif"
    else if hdr 0 = 0x52 ∧ hdr 1 = 0x49 ∧ hdr 2 = 0x46 ∧ hdr 3 = 0x46 ∧
        hdr 8 = 0x57 ∧ hdr 9 = 0x45 ∧ hdr 10 = 0x42 ∧ hdr 11 = 0x50 then some ".webp"
    else none

/-- The cache probe loop shared by the download functions: walk a kind
specific list of candidate extensions and return the first candidate path
that passes the `os.Stat` test.  `needNonempty` is true for the sticker
probe, which additionally requires `info.Size() > 0`; the photo and video
probes only test existence. -/
def probeFirst (fs : Fs) (base : String) (needNonempty : Bool) : List String → Option String
  | [] => none
  | ext :: rest =>
      match lookupFs fs (base ++ ext) with
      | some b =>
          if needNonempty && b.length == 0 then probeFirst fs base needNonempty rest
          else some (base ++ ext)
      | none => probeFirst fs base needNonempty rest

/-- Base of the sticker cache paths `/tmp/vi-tg_sticker_<id><ext>`. -/
def stickerBase (docId : Nat) : String := "/tmp/vi-tg_sticker_" ++ toString docId

/-- Temp file used by `downloadStickerFile` before the final rename. -/
def stickerTempPath (docId : Nat) : String := stickerBase docId ++ "_temp"

/-- Cache probe of `downloadStickerFile`: first existing nonempty candidate
among `.webp .png .jpg .jpeg`. -/
def probeStickerCache (fs : Fs) (docId : Nat) : Option String :=
  probeFirst fs (stickerBase docId) true [".webp", ".png", ".jpg", ".jpeg"]

/-- Base of the photo cache paths `/tmp/vi-tg_image_<messageID><ext>`. -/
def imageBase (messageID : Nat) : String := "/tmp/vi-tg_image_" ++ toString messageID

/-- Temp file used by `downloadFileWithLocation` before the final rename. -/
def imageTempPath (messageID : Nat) : String := imageBase messageID ++ "_temp"

/-- Cache probe of `downloadPhotoFile`: first existing candidate among
`.jpg .jpeg .png .webp .gif`; existence only, no size test. -/
def probePhotoCache (fs : Fs) (messageID : Nat) : Option String :=
  probeFirst fs (imageBase messageID) false [".jpg", ".jpeg", ".png", ".webp", ".gif"]

/-- Base of the video cache paths `/tmp/vi-tg_video_<messageID><ext>`. -/
def videoBase (messageID : Nat) : String := "/tmp/vi-tg_video_" ++ toString messageID

/-- Cache probe of `downloadVideoFile`: first existing candidate among
`.mp4 .avi .mkv .mov .webm .flv`; existence only, no size test. -/
def probeVideoCache (fs : Fs) (messageID : Nat) : Option String :=
  probeFirst fs (videoBase messageID) false [".mp4", ".avi", ".mkv", ".mov", ".webm", ".flv"]

/-- `downloadStickerFile`: probe the cache, otherwise fetch to the temp file
with 512 KiB chunks, reject an empty result, sniff the format (falling back
to the preferred extension: `.png` when the document has an image-size
attribute, else `.webp`) and publish by renaming the temp file.  Returns the
result path and the file operations performed. -/
def downloadStickerFile (fs : Fs) (rem : Remote) (docId : Nat)
    (hasImageSizeAttr : Bool) (fuel : Nat) : Option String × List FileOp :=
  match probeStickerCache fs docId with
  | some p => (some p, [])
  | none =>
    let preferredExt := if hasImageSizeAttr then ".png" else ".webp"
    let temp := stickerTempPath docId
    match fetchLoop rem temp (512 * 1024) fuel 0 [] with
    | (.done data, _, ops) =>
        if data.length = 0 then (none, .create temp :: ops ++ [.remove temp])
        else
          let ext := match detectImageFormat data with
            | some e => e
            | none => preferredExt
          (some (stickerBase docId ++ ext),
           .create temp :: ops ++ [.rename temp (stickerBase docId ++ ext)])
    | (.failed, _, ops) => (none, .create temp :: ops)
    | (.fuelOut, _, ops) => (none, .create temp :: ops)

/-- `downloadFileWithLocation`: fetch a photo location to the image temp file
with 512 KiB chunks, reject an empty result, sniff the format (fallback
`.png`) and publish by renaming the temp file.  The Go function also takes an
`ext` argument, but never uses it (the detected extension always wins). -/
def downloadFileWithLocation (rem : Remote) (fuel : Nat) (messageID : Nat) :
    Option String × List FileOp :=
  let temp := imageTempPath messageID
  match fetchLoop rem temp (512 * 1024) fuel 0 [] with
  | (.done data, _, ops) =>
      if data.length = 0 then (none, .create temp :: ops ++ [.remove temp])
      else
        let ext := match detectImageFormat data with
          | some e => e
          | none => ".png"
        (some (imageBase messageID ++ ext),
         .create temp :: ops ++ [.rename temp (imageBase messageID ++ ext)])
  | (.failed, _, ops) => (none, .create temp :: ops)
  | (.fuelOut, _, ops) => (none, .create temp :: ops)

/-- One element of `photo.Sizes`, as distinguished by the type switch in
`downloadPhotoFile`: `tg.PhotoSize` (with thumb type and width),
`tg.PhotoSizeProgressive` (width, empty thumb type), `tg.PhotoSizeEmpty`
(skipped), `tg.PhotoStrippedSize` (thumb type, width treated as 0), or any
other class (skipped by the `default` case). -/
inductive PhotoSizeClass where
  | size (typ : String) (w : Nat)
  | progressive (w : Nat)
  | emptySize
  | stripped (typ : String)
  | unknown
deriving DecidableEq, Repr

/-- A collected size candidate: the declared width, the `ThumbSize` string of
the `InputPhotoFileLocation` built for it, and whether it came from a
stripped size (which the code assigns width 0). -/
structure SizeEntry where
  width : Nat
  thumb : String
  isStripped : Bool
deriving DecidableEq, Repr

/-- The collection loop of `downloadPhotoFile`: keep `PhotoSize`,
`PhotoSizeProgressive` (thumb "") and `PhotoStrippedSize` (width 0), skip
`PhotoSizeEmpty` and unknown classes. -/
def collectSizes : List PhotoSizeClass → List SizeEntry
  | [] => []
  | .size t w :: rest => ⟨w, t, false⟩ :: collectSizes rest
  | .progressive w :: rest => ⟨w, "", false⟩ :: collectSizes rest
  | .emptySize :: rest => collectSizes rest
  | .stripped t :: rest => ⟨0, t, true⟩ :: collectSizes rest
  | .unknown :: rest => collectSizes rest

/-- Inner pass of the sort in `downloadPhotoFile` (`for j := i+1 ...: if
sizes[i].width < sizes[j].width swap`): walk the suffix with the current
element at position `i`, swapping whenever a wider element is found.  Returns
the element left at position `i` and the new suffix. -/
def selectPass (x : SizeEntry) : List SizeEntry → SizeEntry × List SizeEntry
  | [] => (x, [])
  | y :: ys =>
      if x.width < y.width then
        let r := selectPass y ys
        (r.1, x :: r.2)
      else
        let r := selectPass x ys
        (r.1, y :: r.2)

theorem selectPass_length (x : SizeEntry) (l : List SizeEntry) :
    (selectPass x l).2.length = l.length := by
  induction l generalizing x with
  | nil => rfl
  | cons y ys ih =>
      simp only [selectPass]
      split <;> simp [ih]

/-- Outer loop of the sort in `downloadPhotoFile`: selection sort into
non-increasing width order. -/
def selSortGo : List SizeEntry → List SizeEntry
  | [] => []
  | x :: xs =>
      let r := selectPass x xs
      r.1 :: selSortGo r.2
termination_by l => l.length
decreasing_by simp [selectPass_length]

/-- The attempt loop of `downloadPhotoFile`: try each size in order,
returning the first non-empty result. -/
def firstSuccess (tryDl : SizeEntry → Option String) : List SizeEntry → Option String
  | [] => none
  | s :: rest =>
      match tryDl s with
      | some r => some r
      | none => firstSuccess tryDl rest

/-- `downloadPhotoFile`: probe the cache (existence only), otherwise collect
the size variants, selection-sort them by descending width and attempt each
in order with `downloadFileWithLocation` until one succeeds.  `tryDl` stands
for `downloadFileWithLocation api location messageID ""` applied to the
location built for the entry. -/
def downloadPhotoFile (fs : Fs) (tryDl : SizeEntry → Option String)
    (sizes : List PhotoSizeClass) (messageID : Nat) : Option String :=
  match probePhotoCache fs messageID with
  | some p => some p
  | none => firstSuccess tryDl (selSortGo (collectSizes sizes))

/-- `filepath.Ext`: the suffix beginning at the final dot, empty when the
name contains no dot. -/
def filePathExt (s : String) : String :=
  let cs := s.toList
  if cs.contains '.' then
    String.mk ('.' :: (cs.reverse.takeWhile (fun c => !(c == '.'))).reverse)
  else ""

/-- The extension scan of `downloadVideoFile` over the document attributes:
start from `.mp4`; every filename attribute containing a dot whose
`filepath.Ext` is nonempty replaces the extension.  `attrs` is the list of
`DocumentAttributeFilename` file names, in order. -/
def videoExt (attrs : List String) : String :=
  attrs.foldl
    (fun ext name =>
      if name.toList.contains '.' then
        if filePathExt name ≠ "" then filePathExt name else ext
      else ext)
    ".mp4"

/-- `downloadVideoFile`: determine the extension from the attributes, probe
the cache (existence only), then fetch with 1 MiB chunks writing directly to
the canonical path `/tmp/vi-tg_video_<messageID><ext>` (no temp file, no
rename), rejecting an empty result. -/
def downloadVideoFile (fs : Fs) (rem : Remote) (attrs : List String)
    (messageID : Nat) (fuel : Nat) : Option String × List FileOp :=
  let ext := videoExt attrs
  match probeVideoCache fs messageID with
  | some p => (some p, [])
  | none =>
    let fileName := videoBase messageID ++ ext
    match fetchLoop rem fileName (1024 * 1024) fuel 0 [] with
    | (.done data, _, ops) =>
        if data.length = 0 then (none, .create fileName :: ops ++ [.remove fileName])
        else (some fileName, .create fileName :: ops)
    | (.failed, _, ops) => (none, .create fileName :: ops)
    | (.fuelOut, _, ops) => (none, .create fileName :: ops)

/-- One invocation of the external frame-extraction tool (`ffmpeg` run via
`sh -c`): whether it exited with status 0, and the content of the output file
it left at the temp preview path (`none` when it created no file). -/
structure ToolRun where
  exitOk : Bool
  output : Option (List Nat)

/-- Canonical preview path `/tmp/vi-tg_video_preview_<id>.jpg`. -/
def previewPath (messageID : Nat) : String :=
  "/tmp/vi-tg_video_preview_" ++ toString messageID ++ ".jpg"

/-- Temp preview path `/tmp/vi-tg_video_preview_<id>_temp.jpg`. -/
def previewTempPath (messageID : Nat) : String :=
  "/tmp/vi-tg_video_preview_" ++ toString messageID ++ "_temp.jpg"

/-- First seek timestamp of the ffmpeg command. -/
def ffTs1 : String := "00:00:01.000"

/-- Second (fallback) seek timestamp of the ffmpeg command. -/
def ffTs2 : String := "00:00:00.500"

/-- Effect of one tool invocation on the filesystem: the output file is
written at the temp preview path when the tool produced one. -/
def applyToolRun (fs : Fs) (messageID : Nat) (r : ToolRun) : Fs :=
  match r.output with
  | some b => setFs fs (previewTempPath messageID) b
  | none => fs

/-- Tail of `generateVideoPreview` after the tool invocations: check that the
temp preview exists, discard it when smaller than 100 bytes, otherwise
publish it by renaming to the canonical preview path. -/
def finishPreview (fs : Fs) (messageID : Nat) (atts : List String) :
    Option String × List String × Fs :=
  match lookupFs fs (previewTempPath messageID) with
  | none => (none, atts, fs)
  | some b =>
      if b.length < 100 then (none, atts, removeFs fs (previewTempPath messageID))
      else
        (some (previewPath messageID), atts,
         setFs (removeFs fs (previewTempPath messageID)) (previewPath messageID) b)

/-- `generateVideoPreview`: return an existing preview; otherwise require the
video file to exist, invoke the tool at timestamp 1s, retry at 0.5s only when
the first invocation exited nonzero, then check existence and the 100-byte
floor and publish by rename.  `tool` maps the seek timestamp to the outcome
of that invocation.  Returns the result, the timestamps attempted, and the
final filesystem. -/
def generateVideoPreview (fs : Fs) (tool : String → ToolRun) (videoPath : String)
    (messageID : Nat) : Option String × List String × Fs :=
  if videoPath = "" then (none, [], fs)
  else if (lookupFs fs (previewPath messageID)).isSome then
    (some (previewPath messageID), [], fs)
  else if (lookupFs fs videoPath).isNone then (none, [], fs)
  else
    let r1 := tool ffTs1
    let fs1 := applyToolRun fs messageID r1
    if r1.exitOk then
      if (lookupFs fs1 (previewTempPath messageID)).isNone then (none, [ffTs1], fs1)
      else finishPreview fs1 messageID [ffTs1]
    else
      let r2 := tool ffTs2
      let fs2 := applyToolRun fs1 messageID r2
      if !r2.exitOk then (none, [ffTs1, ffTs2], fs2)
      else if (lookupFs fs2 (previewTempPath messageID)).isNone then
        (none, [ffTs1, ffTs2], fs2)
      else finishPreview fs2 messageID [ffTs1, ffTs2]

/-- An RGBA color (`color.RGBA`). -/
structure Color where
  r : Nat
  g : Nat
  b : Nat
  a : Nat
deriving DecidableEq, Repr

/-- A raster image: bounds and a pixel function.  `image.RGBA.Set` ignores
out-of-bounds writes, so every drawing primitive below clips to the bounds. -/
structure Img where
  w : Int
  h : Int
  px : Int → Int → Color

/-- `image.NewRGBA(image.Rect(0,0,w,h))`: zero-initialized pixels. -/
def newImg (w h : Int) : Img := ⟨w, h, fun _ _ => ⟨0, 0, 0, 0⟩⟩

/-- The fill loop of `generateFallbackMap`: set every in-bounds pixel. -/
def fillAll (img : Img) (c : Color) : Img :=
  { img with px := fun x y =>
      if 0 ≤ x ∧ x < img.w ∧ 0 ≤ y ∧ y < img.h then c else img.px x y }

/-- A filled-disk drawing loop (`for dy, dx in [-rad,rad]: if dx*dx+dy*dy <=
rad*rad: Set(cx+dx, cy+dy, c)`), clipped to the image bounds. -/
def drawDisk (img : Img) (cx cy rad : Int) (c : Color) : Img :=
  { img with px := fun x y =>
      if (x - cx) ^ 2 + (y - cy) ^ 2 ≤ rad ^ 2 ∧
          0 ≤ x ∧ x < img.w ∧ 0 ≤ y ∧ y < img.h then c
      else img.px x y }

/-- The ring drawing loop of `addLocationMarker` (`rad < d ≤ borderRad`),
clipped to the image bounds. -/
def drawRing (img : Img) (cx cy rad borderRad : Int) (c : Color) : Img :=
  { img with px := fun x y =>
      if (x - cx) ^ 2 + (y - cy) ^ 2 ≤ borderRad ^ 2 ∧
          rad ^ 2 < (x - cx) ^ 2 + (y - cy) ^ 2 ∧
          0 ≤ x ∧ x < img.w ∧ 0 ≤ y ∧ y < img.h then c
      else img.px x y }

/-- The tile blit loop of `generateLocationMap`: copy `tile` onto the canvas
with its top-left corner at `(ox, oy)`, clipped to the canvas bounds. -/
def blit (canvas tile : Img) (ox oy : Int) : Img :=
  { canvas with px := fun x y =>
      if ox ≤ x ∧ x < ox + tile.w ∧ oy ≤ y ∧ y < oy + tile.h ∧
          0 ≤ x ∧ x < canvas.w ∧ 0 ≤ y ∧ y < canvas.h then tile.px (x - ox) (y - oy)
      else canvas.px x y }

/-- The solid fallback canvas color (`color.RGBA{100, 150, 200, 255}`). -/
def fallbackBlue : Color := ⟨100, 150, 200, 255⟩

/-- The marker color (`color.RGBA{255, 0, 0, 255}`). -/
def markerRed : Color := ⟨255, 0, 0, 255⟩

/-- The marker border color (`color.RGBA{0, 0, 0, 255}`). -/
def borderBlack : Color := ⟨0, 0, 0, 255⟩

/-- `generateFallbackMap`: a 400x300 canvas filled with
`fallbackBlue`, with a filled red disk of radius 5 centered at (200, 150).
The lat/lng arguments of the Go function are unused in its body. -/
def generateFallbackMap : Img :=
  drawDisk (fillAll (newImg 400 300) fallbackBlue) 200 150 5 markerRed

/-- `latLngToPixel`: the ellipsoidal WGS84 Web-Mercator projection of
backend/server.go, over the real numbers. -/
noncomputable def latLngToPixel (lat lng : ℝ) (zoom : ℕ) : ℝ × ℝ :=
  let e : ℝ := 0.0818191908426
  let beta := lat * Real.pi / 180
  let phi := (1 - e * Real.sin beta) / (1 + e * Real.sin beta)
  let theta := Real.tan (Real.pi / 4 + beta / 2) * Real.rpow phi (e / 2)
  let rho := Real.rpow 2 ((zoom : ℝ) + 8) / 2
  (rho * (1 + lng / 180), rho * (1 - Real.log theta / Real.pi))

/-- `latLngToTileNumbers`: the same projection formula, duplicated in the Go
source, followed by `floor(pixel/256)` on each axis. -/
noncomputable def latLngToTileNumbers (lat lng : ℝ) (zoom : ℕ) : ℤ × ℤ :=
  let e : ℝ := 0.0818191908426
  let beta := lat * Real.pi / 180
  let phi := (1 - e * Real.sin beta) / (1 + e * Real.sin beta)
  let theta := Real.tan (Real.pi / 4 + beta / 2) * Real.rpow phi (e / 2)
  let rho := Real.rpow 2 ((zoom : ℝ) + 8) / 2
  let xPixel := rho * (1 + lng / 180)
  let yPixel := rho * (1 - Real.log theta / Real.pi)
  (⌊xPixel / 256⌋, ⌊yPixel / 256⌋)

/-- Go's `int(x)` conversion from float64: truncation toward zero. -/
noncomputable def goInt (x : ℝ) : ℤ := if 0 ≤ x then ⌊x⌋ else ⌈x⌉

/-- The marker position within its tile, as computed by `addLocationMarker`:
`int(tilePixel) - tile*256` on each axis, where the tile indices come from
`latLngToTileNumbers` on the same coordinate. -/
noncomputable def markerPixelInTile (lat lng : ℝ) (zoom : ℕ) : ℤ × ℤ :=
  let t := latLngToTileNumbers lat lng zoom
  let p := latLngToPixel lat lng zoom
  (goInt p.1 - t.1 * 256, goInt p.2 - t.2 * 256)

/-- `addLocationMarker`: draw a filled red disk of radius 10 and a black ring
of outer radius 12 at the marker position (tile offset on the canvas plus the
marker position within the tile). -/
noncomputable def addLocationMarker (img : Img) (lat lng : ℝ) (zoom : ℕ)
    (tileX tileY offsetX offsetY : ℤ) : Img :=
  let p := latLngToPixel lat lng zoom
  let pixelX := goInt p.1 - tileX * 256
  let pixelY := goInt p.2 - tileY * 256
  let markerX := offsetX + pixelX
  let markerY := offsetY + pixelY
  drawRing (drawDisk img markerX markerY 10 markerRed) markerX markerY 10 12 borderBlack

/-- The outcome of the tile request `http.Get(tileURL)`: a network error, or
a status code with a body. -/
inductive TileFetch where
  | netErr
  | ok (status : Nat) (body : List Nat)

/-- `generateLocationMap`: convert the coordinate to tile numbers at zoom 15,
fetch the tile, and on network error, non-200 status or decode failure fall
back to `generateFallbackMap`; otherwise composite the decoded tile centered
on a 400x300 canvas and add the marker.  `decode` stands for `image.Decode`
on the body bytes. -/
noncomputable def generateLocationMap (fetch : TileFetch)
    (decode : List Nat → Option Img) (lat lng : ℝ) : Img :=
  let zoom := 15
  let t := latLngToTileNumbers lat lng zoom
  match fetch with
  | .netErr => generateFallbackMap
  | .ok status body =>
      if status ≠ 200 then generateFallbackMap
      else
        match decode body with
        | none => generateFallbackMap
        | some tileImg =>
            let finalImg := newImg 400 300
            let tx := (400 - tileImg.w) / 2
            let ty := (300 - tileImg.h) / 2
            addLocationMarker (blit finalImg tileImg tx ty) lat lng zoom t.1 t.2 tx ty

/-- An HTTP response of the location-map endpoint: the served raster bytes,
or an error status. -/
inductive HttpResp where
  | okBytes (data : List Nat)
  | errResp (code : Nat)
deriving DecidableEq, Repr

/-- Canonical map path `/tmp/vi-tg_location_map_<id>.png`. -/
def locationMapPath (locationID : Nat) : String :=
  "/tmp/vi-tg_location_map_" ++ toString locationID ++ ".png"

/-- `getLocationMap` handler: read the lat/lng query parameters (both must be
present, else 0), substitute the Red Square default when both are zero, and
serve the canonical map file, generating it first via `generateLocationMap`
only when it does not exist.  Coordinates are modelled as exact rationals;
`gen lat lng` stands for the bytes `generateLocationMap` writes at the map
path (`none` when generation fails).  Returns the response and the final
filesystem. -/
def getLocationMapHandler (fs : Fs) (gen : ℚ → ℚ → Option (List Nat))
    (locationID : Nat) (latq lngq : Option ℚ) : HttpResp × Fs :=
  let c0 : ℚ × ℚ := match latq, lngq with
    | some a, some b => (a, b)
    | _, _ => (0, 0)
  let c : ℚ × ℚ := if c0.1 = 0 ∧ c0.2 = 0 then (55.7558, 37.6173) else c0
  let mapPath := locationMapPath locationID
  match lookupFs fs mapPath with
  | some data => (.okBytes data, fs)
  | none =>
      match gen c.1 c.2 with
      | none => (.errResp 500, fs)
      | some bytes =>
          let fs1 := setFs fs mapPath bytes
          match lookupFs fs1 mapPath with
          | some data => (.okBytes data, fs1)
          | none => (.errResp 500, fs1)

/-! ## Spec-side definitions

These follow the words of the spec (not the source) and are compared with the
source-derived definitions in refinement statements. -/

/-- Modelled from the spec: the format-detection table of §4.2 / §8, applied
to the byte sequence itself — JPEG `FF D8`, PNG `89 50 4E 47 0D 0A 1A 0A`,
GIF `47 49 46 38`, WEBP `52 49 46 46` with `57 45 42 50` at offset 8,
checked in that order, first match wins, `none` otherwise. -/
def specDetectTable (c : List Nat) : Option String :=
  if c.take 2 = [0xFF, 0xD8] then some ".jpg"
  else if c.take 8 = [0x89, 0x50, 0x4E, 0x47, 0x0D, 0x0A, 0x1A, 0x0A] then some ".png"
  else if c.take 4 = [0x47, 0x49, 0x46, 0x38] then some ".gif"
  else if c.take 4 = [0x52, 0x49, 0x46, 0x46] ∧
      (c.drop 8).take 4 = [0x57, 0x45, 0x42, 0x50] then some ".webp"
  else none

/-- A remote object of the given content served honestly: a ranged read at
`off` with limit `lim` returns the next `min lim (N - off)` bytes, and the
CDN endpoint is never used. -/
def honestRemote (content : List Nat) : Remote where
  getFile := fun off lim => .file ((content.drop off).take lim)
  getCDNFile := fun _ _ _ => .err

/-- Is this request a CDN read? -/
def isCdnReq : Req → Bool
  | .cdn _ _ _ => true
  | .main _ _ => false

/-- Formalization of the C4 claim over a request trace: once a CDN read has
occurred, every subsequent ranged read of the session is a CDN read. -/
def cdnSticky : List Req → Bool
  | [] => true
  | .cdn _ _ _ :: rs => rs.all isCdnReq
  | .main _ _ :: rs => cdnSticky rs

/-- Every CDN read in a trace is immediately preceded by a main-endpoint read
at the same offset and limit (a trace never begins with a CDN read). -/
def cdnPrecededByMain : List Req → Bool
  | [] => true
  | .cdn _ _ _ :: _ => false
  | .main o l :: .cdn _ o2 l2 :: rs2 => o2 == o && l2 == l && cdnPrecededByMain rs2
  | .main _ _ :: .main o2 l2 :: rs2 => cdnPrecededByMain (.main o2 l2 :: rs2)
  | [.main _ _] => true

/-- A remote that answers every main-endpoint read with a CDN redirect and
serves the content honestly from the CDN endpoint under the right token. -/
def redirectRemote (content : List Nat) (tok : Nat) : Remote where
  getFile := fun _ _ => .redirect tok
  getCDNFile := fun t off lim =>
    if t = tok then .file ((content.drop off).take lim) else .err

/-- Size variants of the C5 witness: widths 90, stripped, 1280 in input
order. -/
def photoSizesW : List PhotoSizeClass :=
  [.size "m" 90, .stripped "i", .progressive 1280]

/-- Attempt outcome of the C5 witness: only the width-90 variant succeeds
(the 1280 attempt fails, exercising the fallback). -/
def photoTryW : SizeEntry → Option String :=
  fun s => if s.width = 90 then some "/tmp/vi-tg_image_1.jpg" else none

/-- Tool behavior of the C7 counterexample: the 1s invocation exits 0 but
produces a 50-byte frame (below the 100-byte floor); the 0.5s invocation
would exit 0 with a 200-byte frame. -/
def previewToolCex : String → ToolRun :=
  fun t =>
    if t = ffTs1 then ⟨true, some (List.replicate 50 0)⟩
    else ⟨true, some (List.replicate 200 0)⟩

/-- Tool behavior of the C7 witness: every invocation exits 0 and produces a
150-byte frame. -/
def previewToolW : String → ToolRun := fun _ => ⟨true, some (List.replicate 150 0)⟩

/-- A failed tile acquisition: network error, non-200 status, or a 200 body
that does not decode. -/
def mapFetchFailed (fetch : TileFetch) (decode : List Nat → Option Img) : Prop :=
  fetch = .netErr ∨
    (∃ st body, fetch = .ok st body ∧ st ≠ 200) ∨
    (∃ body, fetch = .ok 200 body ∧ decode body = none)

/-- Decoder of the C8 witness: nothing decodes. -/
def decodeW : List Nat → Option Img := fun _ => none

/-- The claim C9 exactly as stated: for every zoom in 1..18 and coordinate in
the open ranges, the marker offset within its tile is strictly inside the
tile bounds on both axes. -/
def claimC9Strict : Prop :=
  ∀ (zoom : ℕ) (lat lng : ℝ), 1 ≤ zoom → zoom ≤ 18 →
    -85 < lat → lat < 85 → -180 < lng → lng < 180 →
    0 < (markerPixelInTile lat lng zoom).1 ∧ (markerPixelInTile lat lng zoom).1 < 256 ∧
      0 < (markerPixelInTile lat lng zoom).2 ∧ (markerPixelInTile lat lng zoom).2 < 256

/-- Every write in a list of operations targets the given path. -/
def writesOnlyTo (ops : List FileOp) (p : String) : Prop :=
  ∀ q b, FileOp.write q b ∈ ops → q = p

/-- Is this operation a rename? -/
def isRenameOp : FileOp → Bool
  | .rename _ _ => true
  | _ => false

end ViTg

namespace ViTg

/-- C6 counterexample: the two-byte sequence `FF D8` begins with the JPEG
magic, so the claim's table yields `.jpg`, but `detectImageFormat` returns
`none` for every input of fewer than 8 bytes. -/
theorem detect_short_jpeg_cex :
    detectImageFormat [0xFF, 0xD8] = none ∧
      specDetectTable [0xFF, 0xD8] = some ".jpg" := by
  constructor <;> rfl

/-- C6 (amended): format detection inspects at most the first 12 bytes;
sequences shorter than 8 bytes always yield `none`, and on sequences of at
least 8 bytes the detector agrees exactly with the claimed magic-signature
table (first match wins, `none` otherwise, after which the caller substitutes
the per-kind default extension). -/
theorem detect_eq_specTable :
    (∀ c : List Nat, c.length < 8 → detectImageFormat c = none) ∧
      (∀ c : List Nat, 8 ≤ c.length → detectImageFormat c = specDetectTable c) := by
  constructor
  · intro c hc
    simp [detectImageFormat, hc]
  · intro c hc
    rcases c with _ | ⟨a0, c⟩; · simp at hc
    rcases c with _ | ⟨a1, c⟩; · simp at hc
    rcases c with _ | ⟨a2, c⟩; · simp at hc
    rcases c with _ | ⟨a3, c⟩; · simp at hc
    rcases c with _ | ⟨a4, c⟩; · simp at hc
    rcases c with _ | ⟨a5, c⟩; · simp at hc
    rcases c with _ | ⟨a6, c⟩; · simp at hc
    rcases c with _ | ⟨a7, c⟩; · simp at hc
    rcases c with _ | ⟨b0, c⟩
    · simp only [detectImageFormat]
      rw [if_neg (by simp only [List.length_cons]; omega)]
      simp [specDetectTable, List.getD, and_assoc]
    rcases c with _ | ⟨b1, c⟩
    · simp only [detectImageFormat]
      rw [if_neg (by simp only [List.length_cons]; omega)]
      simp [specDetectTable, List.getD, and_assoc]
    rcases c with _ | ⟨b2, c⟩
    · simp only [detectImageFormat]
      rw [if_neg (by simp only [List.length_cons]; omega)]
      simp [specDetectTable, List.getD, and_assoc]
    rcases c with _ | ⟨b3, c⟩
    · simp only [detectImageFormat]
      rw [if_neg (by simp only [List.length_cons]; omega)]
      simp [specDetectTable, List.getD, and_assoc]
    · simp only [detectImageFormat]
      rw [if_neg (by simp only [List.length_cons]; omega)]
      simp [specDetectTable, List.getD, and_assoc]

/-- C6 witness: the amended theorem applied to a JPEG header and to an
arbitrary 8-byte sequence. -/
theorem detect_eq_specTable_w :
    detectImageFormat [0xFF, 0xD8, 1, 2, 3, 4, 5, 6] =
        specDetectTable [0xFF, 0xD8, 1, 2, 3, 4, 5, 6] ∧
      detectImageFormat [9, 9, 9] = none :=
  ⟨detect_eq_specTable.2 [0xFF, 0xD8, 1, 2, 3, 4, 5, 6] (by decide),
   detect_eq_specTable.1 [9, 9, 9] (by decide)⟩

/-- Soundness of the probe loop: a returned path is one of the candidates,
exists in the filesystem, and is nonempty when the probe requires it. -/
theorem probeFirst_sound (exts : List String) (fs : Fs) (base : String)
    (need : Bool) (p : String) (h : probeFirst fs base need exts = some p) :
    ∃ ext ∈ exts, p = base ++ ext ∧
      ∃ b, lookupFs fs p = some b ∧ (need = true → 0 < b.length) := by
  induction exts with
  | nil => simp [probeFirst] at h
  | cons ext rest ih =>
      cases hb : lookupFs fs (base ++ ext) with
      | none =>
          simp only [probeFirst, hb] at h
          obtain ⟨e, he, hp, b, hlook, hlen⟩ := ih h
          exact ⟨e, by simp [he], hp, b, hlook, hlen⟩
      | some b =>
          simp only [probeFirst, hb] at h
          by_cases hskip : need && b.length == 0
          · rw [if_pos hskip] at h
            obtain ⟨e, he, hp, b', hlook, hlen⟩ := ih h
            exact ⟨e, by simp [he], hp, b', hlook, hlen⟩
          · rw [if_neg hskip] at h
            refine ⟨ext, by simp, by simpa using h.symm, b, ?_, ?_⟩
            · obtain rfl : p = base ++ ext := by simpa using h.symm
              exact hb
            · intro hneed
              subst hneed
              have hb0 : b.length ≠ 0 := by simpa using hskip
              omega

/-- C2 counterexample: a zero-byte file at the first photo candidate path is
reported as a cache hit by the probe of `downloadPhotoFile`, before any
network activity. -/
theorem probePhoto_zeroByte_cex :
    probePhotoCache [("/tmp/vi-tg_image_5.jpg", [])] 5 =
        some "/tmp/vi-tg_image_5.jpg" ∧
      lookupFs [("/tmp/vi-tg_image_5.jpg", [])] "/tmp/vi-tg_image_5.jpg" =
        some [] := by
  constructor <;> rfl

/-- C2 (amended): the sticker cache probe returns a path only when the file
exists with nonzero size; the photo and video probes return the first
existing candidate regardless of size, so a zero-byte file can be reported as
a cache hit there. -/
theorem cacheProbe_amended :
    (∀ (fs : Fs) (docId : Nat) (p : String), probeStickerCache fs docId = some p →
        ∃ b, lookupFs fs p = some b ∧ 0 < b.length) ∧
      (∀ (fs : Fs) (messageID : Nat) (p : String), probePhotoCache fs messageID = some p →
        ∃ b, lookupFs fs p = some b) ∧
      (∀ (fs : Fs) (messageID : Nat) (p : String), probeVideoCache fs messageID = some p →
        ∃ b, lookupFs fs p = some b) := by
  refine ⟨fun fs docId p h => ?_, fun fs mid p h => ?_, fun fs mid p h => ?_⟩
  · obtain ⟨e, _, _, b, hlook, hlen⟩ := probeFirst_sound _ _ _ _ _ h
    exact ⟨b, hlook, hlen rfl⟩
  · obtain ⟨e, _, _, b, hlook, _⟩ := probeFirst_sound _ _ _ _ _ h
    exact ⟨b, hlook⟩
  · obtain ⟨e, _, _, b, hlook, _⟩ := probeFirst_sound _ _ _ _ _ h
    exact ⟨b, hlook⟩

/-- C2 witness: the amended theorem applied to a concrete filesystem holding
a one-byte sticker file and a zero-byte photo file. -/
theorem cacheProbe_amended_w :
    (∃ b, lookupFs [("/tmp/vi-tg_sticker_3.png", [7])] "/tmp/vi-tg_sticker_3.png" =
        some b ∧ 0 < b.length) ∧
      ∃ b, lookupFs [("/tmp/vi-tg_image_5.jpg", [])] "/tmp/vi-tg_image_5.jpg" = some b :=
  ⟨cacheProbe_amended.1 [("/tmp/vi-tg_sticker_3.png", [7])] 3
      "/tmp/vi-tg_sticker_3.png" (by rfl),
   cacheProbe_amended.2.1 [("/tmp/vi-tg_image_5.jpg", [])] 5
      "/tmp/vi-tg_image_5.jpg" (by rfl)⟩

/-- Behavior of the fetch loop against an honest remote, from an offset that
is `k` full chunks before the end of the object: the loop performs `k + 1`
reads at offsets increasing by exactly one chunk length, appends the `k` full
chunks, receives a trailing empty chunk and terminates. -/
theorem fetchLoop_honest (content : List Nat) (p : String) (cs : Nat) (hcs : 0 < cs) :
    ∀ (k off : Nat) (acc : List Nat) (fuel : Nat),
      content.length = off + k * cs → k + 1 ≤ fuel →
      fetchLoop (honestRemote content) p cs fuel off acc =
        (.done (acc ++ content.drop off),
         (List.range (k + 1)).map (fun i => Req.main (off + i * cs) cs),
         (List.range k).map
           (fun i => FileOp.write p ((content.drop (off + i * cs)).take cs))) := by
  intro k
  induction k with
  | zero =>
      intro off acc fuel hlen hfuel
      obtain ⟨f, rfl⟩ : ∃ f, fuel = f + 1 := ⟨fuel - 1, by omega⟩
      have hdrop : content.drop off = [] := List.drop_eq_nil_of_le (by omega)
      rw [show List.range 1 = [0] from rfl]
      simp [fetchLoop, honestRemote, hdrop]
  | succ k ih =>
      intro off acc fuel hlen hfuel
      obtain ⟨f, rfl⟩ : ∃ f, fuel = f + 1 := ⟨fuel - 1, by omega⟩
      have hcsle : cs ≤ (k + 1) * cs := Nat.le_mul_of_pos_left cs (Nat.succ_pos k)
      have hdroplen : (content.drop off).length = (k + 1) * cs := by
        simp [hlen]
      have hblen : ((content.drop off).take cs).length = cs := by
        rw [List.length_take, hdroplen]
        exact Nat.min_eq_left hcsle
      have hjoin : (content.drop off).take cs ++ content.drop (off + cs) = content.drop off := by
        have h1 : content.drop (off + cs) = (content.drop off).drop cs := by
          rw [List.drop_drop]
        rw [h1, List.take_append_drop]
      have hlen' : content.length = (off + cs) + k * cs := by rw [hlen]; ring
      have hget : (honestRemote content).getFile off cs =
          .file ((content.drop off).take cs) := rfl
      simp only [fetchLoop]
      rw [hget]
      simp only []
      rw [hblen]
      rw [if_neg (show ¬ cs = 0 by omega), if_neg (lt_irrefl cs)]
      rw [ih (off + cs) (acc ++ (content.drop off).take cs) f hlen' (by omega)]
      have hreqs : (List.range (k + 1 + 1)).map (fun i => Req.main (off + i * cs) cs) =
          Req.main off cs ::
            (List.range (k + 1)).map (fun i => Req.main (off + cs + i * cs) cs) := by
        rw [List.range_succ_eq_map, List.map_cons, List.map_map]
        refine congrArg₂ List.cons (by simp) (List.map_congr_left fun i _ => ?_)
        show Req.main (off + Nat.succ i * cs) cs = Req.main (off + cs + i * cs) cs
        congr 1
        simp [Nat.succ_mul]
        omega
      have hops : (List.range (k + 1)).map
            (fun i => FileOp.write p ((content.drop (off + i * cs)).take cs)) =
          FileOp.write p ((content.drop off).take cs) ::
            (List.range k).map
              (fun i => FileOp.write p ((content.drop (off + cs + i * cs)).take cs)) := by
        rw [List.range_succ_eq_map, List.map_cons, List.map_map]
        refine congrArg₂ List.cons (by simp) (List.map_congr_left fun i _ => ?_)
        show FileOp.write p ((content.drop (off + Nat.succ i * cs)).take cs) =
          FileOp.write p ((content.drop (off + cs + i * cs)).take cs)
        have hidx : off + Nat.succ i * cs = off + cs + i * cs := by
          simp only [Nat.succ_mul]
          omega
        rw [hidx]
      rw [hreqs, hops]
      refine congrArg₂ Prod.mk ?_ rfl
      show FetchOut.done (acc ++ (content.drop off).take cs ++ content.drop (off + cs)) =
        FetchOut.done (acc ++ content.drop off)
      rw [List.append_assoc, hjoin]

/-- C3: against an honestly served object whose size `N` is an exact positive
multiple `k * cs` of the chunk size, the fetch loop issues exactly
`N / cs + 1 = k + 1` ranged reads, at offsets `0, cs, 2·cs, …` (each
iteration that appends a non-empty chunk advances the offset by exactly the
chunk length), the last read returning the empty chunk that terminates the
loop; and for `N = cs - 1` it issues exactly one read. -/
theorem fetchLoop_read_counts :
    (∀ (content : List Nat) (p : String) (cs k : Nat), 0 < cs → 0 < k →
        content.length = k * cs →
        (fetchLoop (honestRemote content) p cs (k + 1) 0 [] =
          (.done content,
           (List.range (k + 1)).map (fun i => Req.main (i * cs) cs),
           (List.range k).map
             (fun i => FileOp.write p ((content.drop (i * cs)).take cs)))) ∧
          k + 1 = content.length / cs + 1) ∧
      (∀ (content : List Nat) (p : String) (cs : Nat), 0 < cs →
        content.length = cs - 1 →
        (fetchLoop (honestRemote content) p cs 1 0 []).2.1 = [Req.main 0 cs] ∧
          (fetchLoop (honestRemote content) p cs 1 0 []).1 = .done content) := by
  constructor
  · intro content p cs k hcs hk hlen
    have h := fetchLoop_honest content p cs hcs k 0 [] (k + 1) (by omega) (le_refl _)
    constructor
    · simpa using h
    · rw [hlen, Nat.mul_div_cancel k hcs]
  · intro content p cs hcs hlen
    by_cases h0 : content.length = 0
    · have hnil : content = [] := List.length_eq_zero.mp h0
      subst hnil
      constructor <;> simp [fetchLoop, honestRemote]
    · have hlt : content.length < cs := by omega
      have htake : content.take cs = content := List.take_of_length_le (by omega)
      constructor <;>
        simp [fetchLoop, honestRemote, htake, h0, hlt, show ¬ cs = 0 by omega]

/-- C3 witness: a 4-byte object fetched with chunk size 2 takes 3 reads at
offsets 0, 2, 4 and two 2-byte writes. -/
theorem fetchLoop_read_counts_w :
    (fetchLoop (honestRemote [5, 6, 7, 8]) "t" 2 3 0 [] =
      (.done [5, 6, 7, 8],
       (List.range 3).map (fun i => Req.main (i * 2) 2),
       (List.range 2).map
         (fun i => FileOp.write "t" (([5, 6, 7, 8].drop (i * 2)).take 2)))) ∧
      2 + 1 = [5, 6, 7, 8].length / 2 + 1 :=
  fetchLoop_read_counts.1 [5, 6, 7, 8] "t" 2 2 (by decide) (by decide) (by decide)

/-- C4 counterexample: a 3-byte object served with chunk size 2 through a
remote that always redirects.  The session succeeds, but its trace is
main-read, CDN-read, main-read, CDN-read: the read after the first CDN read
goes to the original endpoint again, so the claim that every subsequent read
uses the CDN endpoint is false. -/
theorem fetchLoop_cdn_cex :
    (fetchLoop (redirectRemote [1, 2, 3] 7) "t" 2 5 0 []).1 = .done [1, 2, 3] ∧
      (fetchLoop (redirectRemote [1, 2, 3] 7) "t" 2 5 0 []).2.1 =
        [.main 0 2, .cdn 7 0 2, .main 2 2, .cdn 7 2 2] ∧
      cdnSticky (fetchLoop (redirectRemote [1, 2, 3] 7) "t" 2 5 0 []).2.1 = false := by
  decide

/-- Every trace of the fetch loop is empty or starts with a main read at the
starting offset. -/
theorem fetchLoop_trace_shape (rem : Remote) (p : String) (cs : Nat)
    (fuel off : Nat) (acc : List Nat) :
    (fetchLoop rem p cs fuel off acc).2.1 = [] ∨
      ∃ rest, (fetchLoop rem p cs fuel off acc).2.1 = Req.main off cs :: rest := by
  match fuel with
  | 0 => exact Or.inl rfl
  | f + 1 =>
      right
      simp only [fetchLoop]
      cases hg : rem.getFile off cs
      case file b =>
        simp only []
        split_ifs <;> exact ⟨_, rfl⟩
      case redirect tok =>
        simp only []
        cases hc : rem.getCDNFile tok off cs
        case file b =>
          simp only []
          split_ifs <;> exact ⟨_, rfl⟩
        case err => exact ⟨_, rfl⟩
        case other => exact ⟨_, rfl⟩
      case err => exact ⟨_, rfl⟩
      case other => exact ⟨_, rfl⟩

/-- C4 (amended): a CDN-redirect response triggers exactly one immediate CDN
read, issued with the redirect token at the same offset and limit as the main
read that was redirected (the empty-chunk/short-chunk completion rules apply
to its chunk); the redirect is not retained, so the next loop iteration
issues its ranged read against the original endpoint again.  In every trace
of the fetch loop, each CDN read is immediately preceded by the main read it
answers, at the same offset and limit. -/
theorem fetchLoop_cdn_single_read (rem : Remote) (p : String) (cs : Nat) :
    ∀ (fuel off : Nat) (acc : List Nat),
      cdnPrecededByMain (fetchLoop rem p cs fuel off acc).2.1 = true := by
  intro fuel
  induction fuel with
  | zero => intro off acc; exact rfl
  | succ f ih =>
      intro off acc
      simp only [fetchLoop]
      cases hg : rem.getFile off cs
      case file b =>
        simp only []
        by_cases h0 : b.length = 0
        · rw [if_pos h0]; exact rfl
        · rw [if_neg h0]
          by_cases hs : b.length < cs
          · rw [if_pos hs]; exact rfl
          · rw [if_neg hs]
            show cdnPrecededByMain
              (Req.main off cs ::
                (fetchLoop rem p cs f (off + b.length) (acc ++ b)).2.1) = true
            rcases fetchLoop_trace_shape rem p cs f (off + b.length) (acc ++ b) with h | ⟨rest, h⟩
            · rw [h]; exact rfl
            · have htail := ih (off + b.length) (acc ++ b)
              rw [h] at htail ⊢
              exact htail
      case redirect tok =>
        simp only []
        cases hc : rem.getCDNFile tok off cs
        case file b =>
          simp only []
          by_cases h0 : b.length = 0
          · rw [if_pos h0]
            show cdnPrecededByMain [Req.main off cs, Req.cdn tok off cs] = true
            simp [cdnPrecededByMain]
          · rw [if_neg h0]
            by_cases hs : b.length < cs
            · rw [if_pos hs]
              show cdnPrecededByMain [Req.main off cs, Req.cdn tok off cs] = true
              simp [cdnPrecededByMain]
            · rw [if_neg hs]
              show cdnPrecededByMain
                (Req.main off cs :: Req.cdn tok off cs ::
                  (fetchLoop rem p cs f (off + b.length) (acc ++ b)).2.1) = true
              simp [cdnPrecededByMain, ih (off + b.length) (acc ++ b)]
        case err =>
          show cdnPrecededByMain [Req.main off cs, Req.cdn tok off cs] = true
          simp [cdnPrecededByMain]
        case other =>
          show cdnPrecededByMain [Req.main off cs, Req.cdn tok off cs] = true
          simp [cdnPrecededByMain]
      case err => exact rfl
      case other => exact rfl

/-- C4 witness: the amended theorem evaluated on the always-redirecting
remote of the counterexample. -/
theorem fetchLoop_cdn_single_read_w :
    cdnPrecededByMain (fetchLoop (redirectRemote [1, 2, 3] 7) "t" 2 5 0 []).2.1 = true :=
  fetchLoop_cdn_single_read (redirectRemote [1, 2, 3] 7) "t" 2 5 0 []

/-- The inner sort pass returns a permutation: the selected element together
with the new suffix is a rearrangement of the old head and suffix. -/
theorem selectPass_perm (l : List SizeEntry) :
    ∀ x : SizeEntry, ((selectPass x l).1 :: (selectPass x l).2).Perm (x :: l) := by
  induction l with
  | nil => intro x; exact List.Perm.refl _
  | cons y ys ih =>
      intro x
      by_cases hlt : x.width < y.width
      · have hsel : selectPass x (y :: ys) =
            ((selectPass y ys).1, x :: (selectPass y ys).2) := by
          simp only [selectPass, if_pos hlt]
        rw [hsel]
        exact List.Perm.trans (List.Perm.swap _ _ _) ((ih y).cons x)
      · have hsel : selectPass x (y :: ys) =
            ((selectPass x ys).1, y :: (selectPass x ys).2) := by
          simp only [selectPass, if_neg hlt]
        rw [hsel]
        exact List.Perm.trans (List.Perm.swap _ _ _)
          (List.Perm.trans ((ih x).cons y) (List.Perm.swap _ _ _))

/-- The inner sort pass selects an element whose width bounds the old head
and every element of the old suffix. -/
theorem selectPass_head_bound (l : List SizeEntry) :
    ∀ x : SizeEntry, x.width ≤ (selectPass x l).1.width ∧
      ∀ z ∈ l, z.width ≤ (selectPass x l).1.width := by
  induction l with
  | nil => intro x; exact ⟨le_refl _, by simp⟩
  | cons y ys ih =>
      intro x
      by_cases hlt : x.width < y.width
      · obtain ⟨ihy, ihys⟩ := ih y
        have hsel : selectPass x (y :: ys) =
            ((selectPass y ys).1, x :: (selectPass y ys).2) := by
          simp only [selectPass, if_pos hlt]
        rw [hsel]
        refine ⟨le_of_lt (lt_of_lt_of_le hlt ihy), fun z hz => ?_⟩
        rcases List.mem_cons.mp hz with rfl | hz
        · exact ihy
        · exact ihys z hz
      · obtain ⟨ihx, ihys⟩ := ih x
        have hsel : selectPass x (y :: ys) =
            ((selectPass x ys).1, y :: (selectPass x ys).2) := by
          simp only [selectPass, if_neg hlt]
        rw [hsel]
        refine ⟨ihx, fun z hz => ?_⟩
        rcases List.mem_cons.mp hz with rfl | hz
        · exact le_trans (le_of_not_lt hlt) ihx
        · exact ihys z hz

/-- The width of the element selected by the inner pass bounds every element
of the new suffix. -/
theorem selectPass_suffix_bound (l : List SizeEntry) (x : SizeEntry) :
    ∀ z ∈ (selectPass x l).2, z.width ≤ (selectPass x l).1.width := by
  intro z hz
  have hz2 : z ∈ x :: l :=
    (selectPass_perm l x).mem_iff.mp (List.mem_cons_of_mem _ hz)
  rcases List.mem_cons.mp hz2 with rfl | hz3
  · exact (selectPass_head_bound l z).1
  · exact (selectPass_head_bound l x).2 z hz3

/-- The selection sort of `downloadPhotoFile` returns a permutation of its
input. -/
theorem selSortGo_perm : ∀ l : List SizeEntry, (selSortGo l).Perm l := by
  have key : ∀ (n : Nat) (l : List SizeEntry), l.length ≤ n → (selSortGo l).Perm l := by
    intro n
    induction n with
    | zero =>
        intro l hl
        have hnil : l = [] := by
          cases l
          · rfl
          · simp at hl
        subst hnil
        simp [selSortGo]
    | succ n ih =>
        intro l hl
        cases l with
        | nil => simp [selSortGo]
        | cons x xs =>
            simp only [selSortGo]
            have hlen : (selectPass x xs).2.length ≤ n := by
              rw [selectPass_length]
              simpa using hl
            exact List.Perm.trans ((ih _ hlen).cons (selectPass x xs).1)
              (selectPass_perm xs x)
  intro l
  exact key l.length l (le_refl _)

/-- The selection sort of `downloadPhotoFile` sorts by non-increasing width. -/
theorem selSortGo_sorted :
    ∀ l : List SizeEntry, List.Pairwise (fun a b => b.width ≤ a.width) (selSortGo l) := by
  have key : ∀ (n : Nat) (l : List SizeEntry), l.length ≤ n →
      List.Pairwise (fun a b => b.width ≤ a.width) (selSortGo l) := by
    intro n
    induction n with
    | zero =>
        intro l hl
        have hnil : l = [] := by
          cases l
          · rfl
          · simp at hl
        subst hnil
        simp [selSortGo]
    | succ n ih =>
        intro l hl
        cases l with
        | nil => simp [selSortGo]
        | cons x xs =>
            simp only [selSortGo]
            have hlen : (selectPass x xs).2.length ≤ n := by
              rw [selectPass_length]
              simpa using hl
            refine List.Pairwise.cons (fun z hz => ?_) (ih _ hlen)
            exact selectPass_suffix_bound xs x z
              ((selSortGo_perm (selectPass x xs).2).mem_iff.mp hz)
  intro l
  exact key l.length l (le_refl _)

/-- The attempt loop returns `none` exactly when every attempt fails. -/
theorem firstSuccess_eq_none_iff (tryDl : SizeEntry → Option String) :
    ∀ l : List SizeEntry, firstSuccess tryDl l = none ↔ ∀ s ∈ l, tryDl s = none := by
  intro l
  induction l with
  | nil => simp [firstSuccess]
  | cons s rest ih =>
      cases h : tryDl s with
      | some r => simp [firstSuccess, h]
      | none => simp [firstSuccess, h, ih]

/-- Stripped size variants are collected with width 0. -/
theorem collectSizes_stripped :
    ∀ sizes : List PhotoSizeClass, ∀ s ∈ collectSizes sizes,
      s.isStripped = true → s.width = 0 := by
  intro sizes
  induction sizes with
  | nil => simp [collectSizes]
  | cons c rest ih =>
      cases c with
      | size t w =>
          intro s hs
          rcases List.mem_cons.mp hs with rfl | hs
          · intro h
            simp at h
          · exact ih s hs
      | progressive w =>
          intro s hs
          rcases List.mem_cons.mp hs with rfl | hs
          · intro h
            simp at h
          · exact ih s hs
      | emptySize => exact ih
      | stripped t =>
          intro s hs
          rcases List.mem_cons.mp hs with rfl | hs
          · intro _
            rfl
          · exact ih s hs
      | unknown => exact ih

/-- C5: on a cache miss, `downloadPhotoFile` attempts the collected size
variants in non-increasing order of declared width (the attempted list is a
permutation of the collected variants, sorted descending, with stripped
variants carrying width 0 and therefore placed last regardless of their input
position), returning the first successful attempt; the result is empty
exactly when every attempted variant fails. -/
theorem photo_variant_descent (fs : Fs) (tryDl : SizeEntry → Option String)
    (sizes : List PhotoSizeClass) (messageID : Nat)
    (hmiss : probePhotoCache fs messageID = none) :
    downloadPhotoFile fs tryDl sizes messageID =
        firstSuccess tryDl (selSortGo (collectSizes sizes)) ∧
      (selSortGo (collectSizes sizes)).Perm (collectSizes sizes) ∧
      List.Pairwise (fun a b => b.width ≤ a.width) (selSortGo (collectSizes sizes)) ∧
      (∀ s ∈ selSortGo (collectSizes sizes), s.isStripped = true → s.width = 0) ∧
      (downloadPhotoFile fs tryDl sizes messageID = none ↔
        ∀ s ∈ selSortGo (collectSizes sizes), tryDl s = none) := by
  have heq : downloadPhotoFile fs tryDl sizes messageID =
      firstSuccess tryDl (selSortGo (collectSizes sizes)) := by
    simp [downloadPhotoFile, hmiss]
  refine ⟨heq, selSortGo_perm _, selSortGo_sorted _, fun s hs => ?_, ?_⟩
  · exact collectSizes_stripped sizes s ((selSortGo_perm _).mem_iff.mp hs)
  · rw [heq]
    exact firstSuccess_eq_none_iff tryDl _

/-- C5 witness: the theorem applied to an empty cache and the
`[90, stripped, 1280]` variant list. -/
theorem photo_variant_descent_w :
    downloadPhotoFile [] photoTryW photoSizesW 1 =
        firstSuccess photoTryW (selSortGo (collectSizes photoSizesW)) ∧
      (selSortGo (collectSizes photoSizesW)).Perm (collectSizes photoSizesW) ∧
      List.Pairwise (fun a b => b.width ≤ a.width) (selSortGo (collectSizes photoSizesW)) ∧
      (∀ s ∈ selSortGo (collectSizes photoSizesW), s.isStripped = true → s.width = 0) ∧
      (downloadPhotoFile [] photoTryW photoSizesW 1 = none ↔
        ∀ s ∈ selSortGo (collectSizes photoSizesW), photoTryW s = none) :=
  photo_variant_descent [] photoTryW photoSizesW 1 (by rfl)

/-- Reading after a write: the written path holds the new content, all other
paths are unchanged. -/
theorem lookupFs_setFs (fs : Fs) (p : String) (b : List Nat) (q : String) :
    lookupFs (setFs fs p b) q = if p = q then some b else lookupFs fs q := by
  induction fs with
  | nil =>
      simp only [setFs, lookupFs]
  | cons e rest ih =>
      obtain ⟨r, c⟩ := e
      by_cases hrp : r = p
      · subst hrp
        simp only [setFs, if_pos rfl, lookupFs]
        by_cases hrq : r = q <;> simp [hrq]
      · simp only [setFs, if_neg hrp, lookupFs]
        by_cases hrq : r = q
        · subst hrq
          simp [if_neg (show ¬ p = r from fun h => hrp h.symm)]
        · simp [hrq, ih]

/-- Reading after a delete: the deleted path is gone, all other paths are
unchanged. -/
theorem lookupFs_removeFs (fs : Fs) (p q : String) :
    lookupFs (removeFs fs p) q = if p = q then none else lookupFs fs q := by
  induction fs with
  | nil => simp [removeFs, lookupFs]
  | cons e rest ih =>
      obtain ⟨r, c⟩ := e
      by_cases hrp : r = p
      · subst hrp
        simp only [removeFs, if_pos rfl]
        by_cases hrq : r = q
        · subst hrq
          simpa using ih
        · simp [ih, hrq, lookupFs]
      · simp only [removeFs, if_neg hrp, lookupFs]
        by_cases hrq : r = q
        · subst hrq
          simp [if_neg (show ¬ p = r from fun h => hrp h.symm)]
        · simp [hrq, ih]

/-- The canonical preview path and the temp preview path always differ. -/
theorem previewPath_ne_temp (messageID : Nat) :
    previewPath messageID ≠ previewTempPath messageID := by
  intro h
  have hlen := congrArg String.length h
  have h4 : String.length ".jpg" = 4 := rfl
  have h9 : String.length "_temp.jpg" = 9 := rfl
  simp only [previewPath, previewTempPath, String.length_append, h4, h9] at hlen
  omega

/-- The publication tail of `generateVideoPreview`: it keeps the attempt
list, and it returns a path only when the temp preview holds at least 100
bytes, in which case that content is published at the canonical preview path
and the temp file is gone. -/
theorem finishPreview_spec (fsx : Fs) (messageID : Nat) (atts : List String) :
    (finishPreview fsx messageID atts).2.1 = atts ∧
      ∀ p, (finishPreview fsx messageID atts).1 = some p →
        p = previewPath messageID ∧
          ∃ b, 100 ≤ b.length ∧
            lookupFs (finishPreview fsx messageID atts).2.2 (previewPath messageID) =
              some b ∧
            lookupFs (finishPreview fsx messageID atts).2.2 (previewTempPath messageID) =
              none := by
  cases hb : lookupFs fsx (previewTempPath messageID) with
  | none =>
      simp [finishPreview, hb]
  | some b =>
      by_cases hlen : b.length < 100
      · simp [finishPreview, hb, hlen]
      · refine ⟨by simp [finishPreview, hb, hlen], fun p hp => ?_⟩
        have hp2 : p = previewPath messageID := by
          simp [finishPreview, hb, hlen] at hp
          exact hp.symm
        refine ⟨hp2, b, by omega, ?_, ?_⟩
        · simp [finishPreview, hb, hlen, lookupFs_setFs]
        · simp [finishPreview, hb, hlen, lookupFs_setFs, lookupFs_removeFs,
            previewPath_ne_temp messageID]

/-- C7 counterexample: when the first ffmpeg invocation exits 0 but its
output is below the 100-byte floor, `generateVideoPreview` discards the
output and returns empty having attempted only the 1s timestamp — it does
not retry at 0.5s, although that retry would have produced a valid preview. -/
theorem preview_no_retry_cex :
    (generateVideoPreview [("/tmp/vi-tg_video_5.mp4", [1])] previewToolCex
        "/tmp/vi-tg_video_5.mp4" 5).1 = none ∧
      (generateVideoPreview [("/tmp/vi-tg_video_5.mp4", [1])] previewToolCex
          "/tmp/vi-tg_video_5.mp4" 5).2.1 = [ffTs1] ∧
      (previewToolCex ffTs2).exitOk = true ∧
      (previewToolCex ffTs2).output = some (List.replicate 200 0) := by
  refine ⟨by decide, by decide, rfl, rfl⟩

/-- C7 (amended): for a video with no cached preview, the generator invokes
the tool first at timestamp 1s and retries at 0.5s exactly when that first
invocation exits nonzero — an undersized output from a successful invocation
is discarded without the 0.5s retry; when both invocations exit nonzero the
result is empty (no error value exists to propagate); and whenever a path is
returned it is the canonical preview path, published by renaming the temp
file (at least 100 bytes long) onto it, leaving no temp file behind. -/
theorem preview_retry_amended (fs : Fs) (tool : String → ToolRun)
    (videoPath : String) (messageID : Nat) (hvp : ¬ videoPath = "")
    (hprev : lookupFs fs (previewPath messageID) = none)
    (hvid : (lookupFs fs videoPath).isSome = true) :
    (generateVideoPreview fs tool videoPath messageID).2.1 =
        (if (tool ffTs1).exitOk then [ffTs1] else [ffTs1, ffTs2]) ∧
      ((tool ffTs1).exitOk = false → (tool ffTs2).exitOk = false →
        (generateVideoPreview fs tool videoPath messageID).1 = none) ∧
      ∀ p, (generateVideoPreview fs tool videoPath messageID).1 = some p →
        p = previewPath messageID ∧
          ∃ b, 100 ≤ b.length ∧
            lookupFs (generateVideoPreview fs tool videoPath messageID).2.2
              (previewPath messageID) = some b ∧
            lookupFs (generateVideoPreview fs tool videoPath messageID).2.2
              (previewTempPath messageID) = none := by
  have hvd : (lookupFs fs videoPath).isNone = false := by
    cases hv : lookupFs fs videoPath
    · rw [hv] at hvid
      simp at hvid
    · simp
  cases hex : (tool ffTs1).exitOk
  · cases hex2 : (tool ffTs2).exitOk
    · simp [generateVideoPreview, hvp, hprev, hvd, hex, hex2]
    · by_cases hchk :
        (lookupFs (applyToolRun (applyToolRun fs messageID (tool ffTs1)) messageID
          (tool ffTs2)) (previewTempPath messageID)).isNone = true
      · simp [generateVideoPreview, hvp, hprev, hvd, hex, hex2, hchk]
      · simp only [generateVideoPreview, if_neg hvp, hprev, hvd, hex, hex2, hchk,
          Option.isSome_none, Bool.false_eq_true, if_false, Bool.not_false,
          Bool.not_true, if_true]
        refine ⟨?_, ?_, ?_⟩
        · simpa using
            (finishPreview_spec (applyToolRun (applyToolRun fs messageID (tool ffTs1))
              messageID (tool ffTs2)) messageID [ffTs1, ffTs2]).1
        · intro h1 h2
          simp at h2
        · exact (finishPreview_spec _ messageID [ffTs1, ffTs2]).2
  · by_cases hchk :
      (lookupFs (applyToolRun fs messageID (tool ffTs1))
        (previewTempPath messageID)).isNone = true
    · simp [generateVideoPreview, hvp, hprev, hvd, hex, hchk]
    · simp only [generateVideoPreview, if_neg hvp, hprev, hvd, hex, hchk,
        Option.isSome_none, Bool.false_eq_true, if_false, if_true]
      refine ⟨?_, ?_, ?_⟩
      · simpa using
          (finishPreview_spec (applyToolRun fs messageID (tool ffTs1))
            messageID [ffTs1]).1
      · intro h1
        simp at h1
      · exact (finishPreview_spec _ messageID [ffTs1]).2

/-- C7 witness: the amended theorem applied to a cached 1-byte video file and
a tool that always produces a 150-byte frame. -/
theorem preview_retry_amended_w :
    (generateVideoPreview [("/tmp/vi-tg_video_5.mp4", [1])] previewToolW
          "/tmp/vi-tg_video_5.mp4" 5).2.1 =
        (if (previewToolW ffTs1).exitOk then [ffTs1] else [ffTs1, ffTs2]) ∧
      ((previewToolW ffTs1).exitOk = false → (previewToolW ffTs2).exitOk = false →
        (generateVideoPreview [("/tmp/vi-tg_video_5.mp4", [1])] previewToolW
          "/tmp/vi-tg_video_5.mp4" 5).1 = none) ∧
      ∀ p, (generateVideoPreview [("/tmp/vi-tg_video_5.mp4", [1])] previewToolW
          "/tmp/vi-tg_video_5.mp4" 5).1 = some p →
        p = previewPath 5 ∧
          ∃ b, 100 ≤ b.length ∧
            lookupFs (generateVideoPreview [("/tmp/vi-tg_video_5.mp4", [1])]
              previewToolW "/tmp/vi-tg_video_5.mp4" 5).2.2 (previewPath 5) = some b ∧
            lookupFs (generateVideoPreview [("/tmp/vi-tg_video_5.mp4", [1])]
              previewToolW "/tmp/vi-tg_video_5.mp4" 5).2.2 (previewTempPath 5) = none :=
  preview_retry_amended [("/tmp/vi-tg_video_5.mp4", [1])] previewToolW
    "/tmp/vi-tg_video_5.mp4" 5 (by decide) (by decide) (by decide)

/-- C8: whenever the tile fetch fails (network error or non-200 status) or
the tile body fails to decode, `generateLocationMap` still produces the
fallback raster: a 400x300 canvas, solid `fallbackBlue`, with a red marker
disk of radius 5 at its center (200, 150) — no error is propagated. -/
theorem map_fallback (fetch : TileFetch) (decode : List Nat → Option Img)
    (lat lng : ℝ) (h : mapFetchFailed fetch decode) :
    generateLocationMap fetch decode lat lng = generateFallbackMap ∧
      generateFallbackMap.w = 400 ∧
      generateFallbackMap.h = 300 ∧
      ∀ x y : Int, 0 ≤ x → x < 400 → 0 ≤ y → y < 300 →
        generateFallbackMap.px x y =
          (if (x - 200) ^ 2 + (y - 150) ^ 2 ≤ 25 then markerRed else fallbackBlue) := by
  refine ⟨?_, rfl, rfl, ?_⟩
  · rcases h with rfl | ⟨st, body, rfl, hst⟩ | ⟨body, rfl, hdec⟩
    · simp [generateLocationMap]
    · simp [generateLocationMap, hst]
    · simp [generateLocationMap, hdec]
  · intro x y hx0 hx hy0 hy
    by_cases hd : (x - 200) ^ 2 + (y - 150) ^ 2 ≤ 25
    · simp [generateFallbackMap, drawDisk, fillAll, newImg, hd, hx0, hx, hy0, hy]
    · simp [generateFallbackMap, drawDisk, fillAll, newImg, hd, hx0, hx, hy0, hy]

/-- C8 witness: the theorem applied to a 404 tile response. -/
theorem map_fallback_w :
    generateLocationMap (.ok 404 []) decodeW 55.7558 37.6173 = generateFallbackMap ∧
      generateFallbackMap.w = 400 ∧
      generateFallbackMap.h = 300 ∧
      ∀ x y : Int, 0 ≤ x → x < 400 → 0 ≤ y → y < 300 →
        generateFallbackMap.px x y =
          (if (x - 200) ^ 2 + (y - 150) ^ 2 ≤ 25 then markerRed else fallbackBlue) :=
  map_fallback (.ok 404 []) decodeW 55.7558 37.6173
    (Or.inr (Or.inl ⟨404, [], rfl, by decide⟩))

/-- C10: when the canonical map file for a location id already exists, the
location-map endpoint serves exactly its bytes, leaves the filesystem
unchanged, and the lat/lng query parameters have no effect: any two requests
for that id return the same response. -/
theorem location_map_cached (fs : Fs) (gen : ℚ → ℚ → Option (List Nat))
    (locationID : Nat) (data : List Nat)
    (h : lookupFs fs (locationMapPath locationID) = some data) :
    (∀ latq lngq : Option ℚ,
        getLocationMapHandler fs gen locationID latq lngq = (.okBytes data, fs)) ∧
      ∀ latq lngq latq2 lngq2 : Option ℚ,
        getLocationMapHandler fs gen locationID latq lngq =
          getLocationMapHandler fs gen locationID latq2 lngq2 := by
  have hserve : ∀ latq lngq : Option ℚ,
      getLocationMapHandler fs gen locationID latq lngq = (.okBytes data, fs) := by
    intro latq lngq
    simp [getLocationMapHandler, h]
  exact ⟨hserve, fun a b c d => by rw [hserve a b, hserve c d]⟩

/-- C10 witness: the theorem applied to a filesystem already holding a map
file for id 9, with two different coordinate pairs. -/
theorem location_map_cached_w :
    (∀ latq lngq : Option ℚ,
        getLocationMapHandler [("/tmp/vi-tg_location_map_9.png", [3, 4])]
          (fun _ _ => none) 9 latq lngq =
          (.okBytes [3, 4], [("/tmp/vi-tg_location_map_9.png", [3, 4])])) ∧
      ∀ latq lngq latq2 lngq2 : Option ℚ,
        getLocationMapHandler [("/tmp/vi-tg_location_map_9.png", [3, 4])]
            (fun _ _ => none) 9 latq lngq =
          getLocationMapHandler [("/tmp/vi-tg_location_map_9.png", [3, 4])]
            (fun _ _ => none) 9 latq2 lngq2 :=
  location_map_cached [("/tmp/vi-tg_location_map_9.png", [3, 4])]
    (fun _ _ => none) 9 [3, 4] (by rfl)

/-- The tile computation is the floor of the pixel computation divided by
256: the two Go functions duplicate the identical projection formula. -/
theorem latLngToTileNumbers_eq_floor (lat lng : ℝ) (zoom : ℕ) :
    latLngToTileNumbers lat lng zoom =
      (⌊(latLngToPixel lat lng zoom).1 / 256⌋, ⌊(latLngToPixel lat lng zoom).2 / 256⌋) :=
  rfl

/-- Floor-arithmetic core of the marker placement: for a nonnegative pixel
coordinate, `int(x) - 256 * floor(x/256)` lies in `[0, 256)`. -/
theorem marker_offset_bound (x : ℝ) (hx : 0 ≤ x) :
    0 ≤ goInt x - ⌊x / 256⌋ * 256 ∧ goInt x - ⌊x / 256⌋ * 256 < 256 := by
  have hg : goInt x = ⌊x⌋ := if_pos hx
  rw [hg]
  have h0 : 0 ≤ x - ⌊x / 256⌋ * 256 := Int.sub_floor_div_mul_nonneg x (by norm_num)
  have h1 : x - ⌊x / 256⌋ * 256 < 256 := Int.sub_floor_div_mul_lt x (by norm_num)
  have hcast : x - (⌊x / 256⌋ : ℝ) * 256 = x - ((⌊x / 256⌋ * 256 : ℤ) : ℝ) := by
    push_cast
    ring
  have hfl : ⌊x - ((⌊x / 256⌋ * 256 : ℤ) : ℝ)⌋ = ⌊x⌋ - ⌊x / 256⌋ * 256 :=
    Int.floor_sub_int x _
  constructor
  · have h2 : (0 : ℤ) ≤ ⌊x - ((⌊x / 256⌋ * 256 : ℤ) : ℝ)⌋ :=
      Int.floor_nonneg.mpr (by rw [← hcast]; exact h0)
    rw [hfl] at h2
    exact h2
  · have h2 : ⌊x - ((⌊x / 256⌋ * 256 : ℤ) : ℝ)⌋ < 256 :=
      Int.floor_lt.mpr (by rw [← hcast]; push_cast; exact h1)
    rw [hfl] at h2
    exact h2

/-- Evaluation of the projection at the equator/prime meridian, zoom 1:
`sin 0 = 0` makes `phi = 1`, `tan (pi/4) = 1` makes `theta = 1`, and
`rho = 2^9 / 2 = 256`, so the pixel is exactly `(256, 256)`. -/
theorem latLngToPixel_zero : latLngToPixel 0 0 1 = (256, 256) := by
  have h9 : ((1 : ℕ) : ℝ) + 8 = ((9 : ℕ) : ℝ) := by push_cast; norm_num
  have hrho : Real.rpow 2 (((1 : ℕ) : ℝ) + 8) = 512 := by
    rw [h9]
    rw [show Real.rpow 2 ((9 : ℕ) : ℝ) = 2 ^ (9 : ℕ) from Real.rpow_natCast 2 9]
    norm_num
  have hbeta : (0 : ℝ) * Real.pi / 180 = 0 := by ring
  simp only [latLngToPixel, hbeta, hrho, Real.sin_zero]
  norm_num [Real.tan_pi_div_four, Real.one_rpow, Real.log_one]

/-- C9 counterexample: at lat = 0, lng = 0, zoom = 1 (all within the claimed
ranges) the projected pixel is exactly (256, 256), a multiple of 256, so the
marker lands on the leading edge of its tile: offset (0, 0), not strictly
inside the tile bounds. -/
theorem marker_strict_cex :
    markerPixelInTile 0 0 1 = (0, 0) ∧ ¬ claimC9Strict := by
  have hm : markerPixelInTile 0 0 1 = (0, 0) := by
    show (goInt (latLngToPixel 0 0 1).1 - (latLngToTileNumbers 0 0 1).1 * 256,
          goInt (latLngToPixel 0 0 1).2 - (latLngToTileNumbers 0 0 1).2 * 256) = (0, 0)
    rw [latLngToTileNumbers_eq_floor, latLngToPixel_zero]
    norm_num [goInt]
  refine ⟨hm, fun h => ?_⟩
  have h2 := h 1 0 0 (le_refl 1) (by norm_num) (by norm_num) (by norm_num)
    (by norm_num) (by norm_num)
  rw [hm] at h2
  exact absurd h2.1 (by norm_num)

/-- C9 (amended): tile selection is the floor of the identical
ellipsoidal-Mercator pixel computation divided by 256, and whenever the
projected pixel coordinates are nonnegative (as they are for coordinates in
the claimed open ranges), the marker offset within the selected tile lies
within the tile's 256x256 pixel grid — in `[0, 256)` on each axis, the
leading edge included (offset 0 occurs, e.g. at lat = lng = 0). -/
theorem marker_in_tile_amended (lat lng : ℝ) (zoom : ℕ)
    (hx : 0 ≤ (latLngToPixel lat lng zoom).1)
    (hy : 0 ≤ (latLngToPixel lat lng zoom).2) :
    latLngToTileNumbers lat lng zoom =
        (⌊(latLngToPixel lat lng zoom).1 / 256⌋,
         ⌊(latLngToPixel lat lng zoom).2 / 256⌋) ∧
      0 ≤ (markerPixelInTile lat lng zoom).1 ∧
      (markerPixelInTile lat lng zoom).1 < 256 ∧
      0 ≤ (markerPixelInTile lat lng zoom).2 ∧
      (markerPixelInTile lat lng zoom).2 < 256 := by
  have hbx := marker_offset_bound (latLngToPixel lat lng zoom).1 hx
  have hby := marker_offset_bound (latLngToPixel lat lng zoom).2 hy
  exact ⟨latLngToTileNumbers_eq_floor lat lng zoom, hbx.1, hbx.2, hby.1, hby.2⟩

/-- C9 witness: the amended theorem at lat = 0, lng = 0, zoom = 1, where the
pixel evaluates to (256, 256). -/
theorem marker_in_tile_amended_w :
    latLngToTileNumbers 0 0 1 =
        (⌊(latLngToPixel 0 0 1).1 / 256⌋, ⌊(latLngToPixel 0 0 1).2 / 256⌋) ∧
      0 ≤ (markerPixelInTile 0 0 1).1 ∧
      (markerPixelInTile 0 0 1).1 < 256 ∧
      0 ≤ (markerPixelInTile 0 0 1).2 ∧
      (markerPixelInTile 0 0 1).2 < 256 :=
  marker_in_tile_amended 0 0 1
    (by rw [latLngToPixel_zero]; norm_num)
    (by rw [latLngToPixel_zero]; norm_num)

/-- Shape of the operations emitted by one fetch-loop run: a sequence of
writes of the received chunks to the target path, followed by a single remove
of that path exactly when the loop failed; on `done` the returned data is the
accumulator followed by the concatenation of the written chunks in order. -/
theorem fetchLoop_ops_shape (rem : Remote) (p : String) (cs : Nat) :
    ∀ (fuel off : Nat) (acc : List Nat),
      ∃ chunks : List (List Nat),
        (fetchLoop rem p cs fuel off acc).2.2 =
            chunks.map (FileOp.write p) ++
              (if (fetchLoop rem p cs fuel off acc).1 = .failed
               then [FileOp.remove p] else []) ∧
          ∀ d, (fetchLoop rem p cs fuel off acc).1 = .done d →
            d = acc ++ chunks.flatten := by
  intro fuel
  induction fuel with
  | zero =>
      intro off acc
      exact ⟨[], by simp [fetchLoop], by simp [fetchLoop]⟩
  | succ f ih =>
      intro off acc
      cases hg : rem.getFile off cs
      case file b =>
        by_cases h0 : b.length = 0
        · refine ⟨[], ?_, ?_⟩ <;> simp [fetchLoop, hg, h0]
        · by_cases hs : b.length < cs
          · refine ⟨[b], ?_, ?_⟩ <;> simp [fetchLoop, hg, h0, hs]
          · obtain ⟨ch, hops, hdone⟩ := ih (off + b.length) (acc ++ b)
            refine ⟨b :: ch, ?_, ?_⟩
            · simp [fetchLoop, hg, h0, hs, hops]
            · simp only [fetchLoop, hg]
              simp only [h0, hs, if_false]
              intro d hd
              rw [hdone d hd, List.flatten_cons, List.append_assoc]
      case redirect tok =>
        cases hc : rem.getCDNFile tok off cs
        case file b =>
          by_cases h0 : b.length = 0
          · refine ⟨[], ?_, ?_⟩ <;> simp [fetchLoop, hg, hc, h0]
          · by_cases hs : b.length < cs
            · refine ⟨[b], ?_, ?_⟩ <;> simp [fetchLoop, hg, hc, h0, hs]
            · obtain ⟨ch, hops, hdone⟩ := ih (off + b.length) (acc ++ b)
              refine ⟨b :: ch, ?_, ?_⟩
              · simp [fetchLoop, hg, hc, h0, hs, hops]
              · simp only [fetchLoop, hg, hc]
                simp only [h0, hs, if_false]
                intro d hd
                rw [hdone d hd, List.flatten_cons, List.append_assoc]
        case err => refine ⟨[], ?_, ?_⟩ <;> simp [fetchLoop, hg, hc]
        case other => refine ⟨[], ?_, ?_⟩ <;> simp [fetchLoop, hg, hc]
      case err => refine ⟨[], ?_, ?_⟩ <;> simp [fetchLoop, hg]
      case other => refine ⟨[], ?_, ?_⟩ <;> simp [fetchLoop, hg]

/-- Replaying a sequence of writes to `p` leaves every other path unchanged
and appends the chunks in order at `p`. -/
theorem applyOps_writes (p : String) :
    ∀ (chunks : List (List Nat)) (fs : Fs) (cur : List Nat),
      lookupFs fs p = some cur →
      (∀ q, q ≠ p →
          lookupFs (applyOps fs (chunks.map (FileOp.write p))) q = lookupFs fs q) ∧
        lookupFs (applyOps fs (chunks.map (FileOp.write p))) p =
          some (cur ++ chunks.flatten) := by
  intro chunks
  induction chunks with
  | nil =>
      intro fs cur hcur
      exact ⟨fun q _ => rfl, by simp [applyOps, hcur]⟩
  | cons c rest ih =>
      intro fs cur hcur
      have hstep : applyOps fs ((c :: rest).map (FileOp.write p)) =
          applyOps (setFs fs p (cur ++ c)) (rest.map (FileOp.write p)) := by
        simp [applyOps, applyOp, hcur]
      have hcur2 : lookupFs (setFs fs p (cur ++ c)) p = some (cur ++ c) := by
        simp [lookupFs_setFs]
      obtain ⟨hne, hself⟩ := ih (setFs fs p (cur ++ c)) (cur ++ c) hcur2
      constructor
      · intro q hq
        rw [hstep, hne q hq, lookupFs_setFs, if_neg (fun h => hq h.symm)]
      · rw [hstep, hself, List.flatten_cons, List.append_assoc]

/-- Replaying a create followed by writes: other paths unchanged, the target
path holds exactly the concatenated chunks. -/
theorem applyOps_create_writes (p : String) (chunks : List (List Nat)) (fs : Fs) :
    (∀ q, q ≠ p →
        lookupFs (applyOps fs (FileOp.create p :: chunks.map (FileOp.write p))) q =
          lookupFs fs q) ∧
      lookupFs (applyOps fs (FileOp.create p :: chunks.map (FileOp.write p))) p =
        some chunks.flatten := by
  have hstep : applyOps fs (FileOp.create p :: chunks.map (FileOp.write p)) =
      applyOps (setFs fs p []) (chunks.map (FileOp.write p)) := by
    simp [applyOps, applyOp]
  have hcur : lookupFs (setFs fs p []) p = some [] := by simp [lookupFs_setFs]
  obtain ⟨hne, hself⟩ := applyOps_writes p chunks (setFs fs p []) [] hcur
  constructor
  · intro q hq
    rw [hstep, hne q hq, lookupFs_setFs, if_neg (fun h => hq h.symm)]
  · rw [hstep, hself]
    simp

/-- Splitting a replay at an appended suffix. -/
theorem applyOps_append (fs : Fs) (l1 l2 : List FileOp) :
    applyOps fs (l1 ++ l2) = applyOps (applyOps fs l1) l2 := by
  simp [applyOps, List.foldl_append]

/-- Appending to a common left part preserves inequality of the data parts. -/
theorem string_append_ne (s : String) (a b : String) (h : a.data ≠ b.data) :
    s ++ a ≠ s ++ b := by
  intro he
  apply h
  have hd : (s ++ a).data = (s ++ b).data := congrArg String.data he
  rw [String.data_append, String.data_append] at hd
  exact List.append_cancel_left hd

/-- The extensions `detectImageFormat` can return. -/
theorem detect_mem (d : List Nat) (e : String) (h : detectImageFormat d = some e) :
    e ∈ [".jpg", ".png", ".gif", ".webp"] := by
  rw [detectImageFormat] at h
  by_cases hl : d.length < 8
  · simp [hl] at h
  · simp only [hl, if_false] at h
    split_ifs at h <;> simp_all

/-- A create at `p`, writes to `p`, and a write-free tail only write to `p`. -/
theorem writesOnlyTo_shape (p : String) (chunks : List (List Nat))
    (extra : List FileOp) (hextra : ∀ q b, FileOp.write q b ∈ extra → q = p) :
    writesOnlyTo (FileOp.create p :: chunks.map (FileOp.write p) ++ extra) p := by
  intro q b hin
  rcases List.mem_cons.mp hin with h | hin2
  · exact absurd h (by simp)
  rcases List.mem_append.mp hin2 with hm | he
  · obtain ⟨c, _, hc⟩ := List.mem_map.mp hm
    injection hc with h1 h2
    exact h1.symm
  · exact hextra q b he

/-- Replaying a single remove. -/
theorem applyOps_single_remove (fs : Fs) (p : String) :
    applyOps fs [FileOp.remove p] = removeFs fs p := rfl

/-- Spec of `downloadFileWithLocation`'s file behavior: all writes go to the
image temp file; a successful download ends with exactly one rename, of the
temp file onto the returned path, which differs from the temp path; a failed
download leaves every path other than the temp file untouched, and (except
for the embedding's fuel-exhaustion artifact) removes the temp file. -/
theorem dlwl_ops (rem : Remote) (fuel messageID : Nat) :
    writesOnlyTo (downloadFileWithLocation rem fuel messageID).2
        (imageTempPath messageID) ∧
      (∀ f, (downloadFileWithLocation rem fuel messageID).1 = some f →
        f ≠ imageTempPath messageID ∧
          ∃ pre, (downloadFileWithLocation rem fuel messageID).2 =
              pre ++ [FileOp.rename (imageTempPath messageID) f] ∧
            ∀ op ∈ pre, isRenameOp op = false) ∧
      ((downloadFileWithLocation rem fuel messageID).1 = none →
        ∀ fs : Fs,
          (∀ q, q ≠ imageTempPath messageID →
            lookupFs (applyOps fs (downloadFileWithLocation rem fuel messageID).2) q =
              lookupFs fs q) ∧
          ((fetchLoop rem (imageTempPath messageID) (512 * 1024) fuel 0 []).1 ≠
              .fuelOut →
            lookupFs (applyOps fs (downloadFileWithLocation rem fuel messageID).2)
              (imageTempPath messageID) = none)) := by
  obtain ⟨chunks, hops, hdone⟩ :=
    fetchLoop_ops_shape rem (imageTempPath messageID) (512 * 1024) fuel 0 []
  rcases hres : fetchLoop rem (imageTempPath messageID) (512 * 1024) fuel 0 []
    with ⟨res, reqs, ops⟩
  simp only [hres] at hops hdone
  cases res with
  | done data =>
      have hdata : data = chunks.flatten := by simpa using hdone data rfl
      simp only [if_neg (by simp : ¬ FetchOut.done data = FetchOut.failed),
        List.append_nil] at hops
      by_cases hz : data.length = 0
      · have hw : downloadFileWithLocation rem fuel messageID =
            (none, .create (imageTempPath messageID) :: ops ++
              [.remove (imageTempPath messageID)]) := by
          simp [downloadFileWithLocation, hres, hz]
        rw [hw]
        refine ⟨?_, by simp, fun _ fs => ?_⟩
        · rw [hops]
          exact writesOnlyTo_shape _ chunks [FileOp.remove (imageTempPath messageID)]
            (by simp)
        · rw [hops,
            show FileOp.create (imageTempPath messageID) ::
                chunks.map (FileOp.write (imageTempPath messageID)) ++
                  [FileOp.remove (imageTempPath messageID)] =
              (FileOp.create (imageTempPath messageID) ::
                chunks.map (FileOp.write (imageTempPath messageID))) ++
                [FileOp.remove (imageTempPath messageID)] from rfl,
            applyOps_append, applyOps_single_remove]
          constructor
          · intro q hq
            rw [lookupFs_removeFs, if_neg (fun h => hq h.symm)]
            exact (applyOps_create_writes (imageTempPath messageID) chunks fs).1 q hq
          · intro _
            rw [lookupFs_removeFs, if_pos rfl]
      · have hw : downloadFileWithLocation rem fuel messageID =
            (some (imageBase messageID ++
              (match detectImageFormat data with | some e => e | none => ".png")),
             .create (imageTempPath messageID) :: ops ++
              [.rename (imageTempPath messageID)
                (imageBase messageID ++
                  (match detectImageFormat data with | some e => e | none => ".png"))]) := by
          simp [downloadFileWithLocation, hres, hz]
        have hextne :
            (imageBase messageID ++
                (match detectImageFormat data with | some e => e | none => ".png")) ≠
              imageTempPath messageID := by
          show _ ≠ imageBase messageID ++ "_temp"
          apply string_append_ne
          cases hdet : detectImageFormat data with
          | none =>
              simp only [hdet]
              decide
          | some e =>
              have hmem := detect_mem data e hdet
              simp only [hdet]
              fin_cases hmem <;> decide
        rw [hw]
        refine ⟨?_, fun f hf => ?_, by simp⟩
        · rw [hops]
          exact writesOnlyTo_shape _ chunks [FileOp.rename (imageTempPath messageID) _]
            (by simp)
        · have hfeq : f = imageBase messageID ++
              (match detectImageFormat data with | some e => e | none => ".png") := by
            simpa using hf.symm

          subst hfeq
          refine ⟨hextne, FileOp.create (imageTempPath messageID) :: ops, by simp, ?_⟩
          intro op hop
          rcases List.mem_cons.mp hop with rfl | hop2
          · rfl
          · rw [hops] at hop2
            obtain ⟨c, _, hc⟩ := List.mem_map.mp hop2
            rw [← hc]
            rfl
  | failed =>
      have hops2 : ops = chunks.map (FileOp.write (imageTempPath messageID)) ++
          [FileOp.remove (imageTempPath messageID)] := by
        rw [hops]
        simp
      have hw : downloadFileWithLocation rem fuel messageID =
          (none, .create (imageTempPath messageID) :: ops) := by
        simp [downloadFileWithLocation, hres]
      rw [hw]
      refine ⟨?_, by simp, fun _ fs => ?_⟩
      · rw [hops2]
        exact writesOnlyTo_shape _ chunks [FileOp.remove (imageTempPath messageID)]
          (by simp)
      · rw [hops2,
          show FileOp.create (imageTempPath messageID) ::
              (chunks.map (FileOp.write (imageTempPath messageID)) ++
                [FileOp.remove (imageTempPath messageID)]) =
            (FileOp.create (imageTempPath messageID) ::
              chunks.map (FileOp.write (imageTempPath messageID))) ++
              [FileOp.remove (imageTempPath messageID)] from rfl,
          applyOps_append, applyOps_single_remove]
        constructor
        · intro q hq
          rw [lookupFs_removeFs, if_neg (fun h => hq h.symm)]
          exact (applyOps_create_writes (imageTempPath messageID) chunks fs).1 q hq
        · intro _
          rw [lookupFs_removeFs, if_pos rfl]
  | fuelOut =>
      simp only [if_neg (by simp : ¬ FetchOut.fuelOut = FetchOut.failed),
        List.append_nil] at hops
      have hw : downloadFileWithLocation rem fuel messageID =
          (none, .create (imageTempPath messageID) :: ops) := by
        simp [downloadFileWithLocation, hres]
      rw [hw]
      refine ⟨?_, by simp, fun _ fs => ?_⟩
      · rw [hops]
        have : FileOp.create (imageTempPath messageID) ::
            chunks.map (FileOp.write (imageTempPath messageID)) =
            FileOp.create (imageTempPath messageID) ::
              chunks.map (FileOp.write (imageTempPath messageID)) ++ [] := by simp
        rw [this]
        exact writesOnlyTo_shape _ chunks [] (by simp)
      · constructor
        · intro q hq
          rw [hops]
          exact (applyOps_create_writes (imageTempPath messageID) chunks fs).1 q hq
        · intro hart
          exact absurd rfl hart

/-- Spec of `downloadStickerFile`'s file behavior on a cache miss: all writes
go to the sticker temp file; a successful download ends with exactly one
rename, of the temp file onto the returned path, which differs from the temp
path; a failed download leaves every path other than the temp file untouched
and (except for the fuel artifact) removes the temp file. -/
theorem sticker_ops (fs0 : Fs) (rem : Remote) (docId : Nat) (hasAttr : Bool)
    (fuel : Nat) (hmiss : probeStickerCache fs0 docId = none) :
    writesOnlyTo (downloadStickerFile fs0 rem docId hasAttr fuel).2
        (stickerTempPath docId) ∧
      (∀ f, (downloadStickerFile fs0 rem docId hasAttr fuel).1 = some f →
        f ≠ stickerTempPath docId ∧
          ∃ pre, (downloadStickerFile fs0 rem docId hasAttr fuel).2 =
              pre ++ [FileOp.rename (stickerTempPath docId) f] ∧
            ∀ op ∈ pre, isRenameOp op = false) ∧
      ((downloadStickerFile fs0 rem docId hasAttr fuel).1 = none →
        ∀ fs : Fs,
          (∀ q, q ≠ stickerTempPath docId →
            lookupFs (applyOps fs (downloadStickerFile fs0 rem docId hasAttr fuel).2) q =
              lookupFs fs q) ∧
          ((fetchLoop rem (stickerTempPath docId) (512 * 1024) fuel 0 []).1 ≠
              .fuelOut →
            lookupFs (applyOps fs (downloadStickerFile fs0 rem docId hasAttr fuel).2)
              (stickerTempPath docId) = none)) := by
  obtain ⟨chunks, hops, hdone⟩ :=
    fetchLoop_ops_shape rem (stickerTempPath docId) (512 * 1024) fuel 0 []
  rcases hres : fetchLoop rem (stickerTempPath docId) (512 * 1024) fuel 0 []
    with ⟨res, reqs, ops⟩
  simp only [hres] at hops hdone
  cases res with
  | done data =>
      simp only [if_neg (by simp : ¬ FetchOut.done data = FetchOut.failed),
        List.append_nil] at hops
      by_cases hz : data.length = 0
      · have hw : downloadStickerFile fs0 rem docId hasAttr fuel =
            (none, .create (stickerTempPath docId) :: ops ++
              [.remove (stickerTempPath docId)]) := by
          simp [downloadStickerFile, hmiss, hres, hz]
        rw [hw]
        refine ⟨?_, by simp, fun _ fs => ?_⟩
        · rw [hops]
          exact writesOnlyTo_shape _ chunks [FileOp.remove (stickerTempPath docId)]
            (by simp)
        · rw [hops,
            show FileOp.create (stickerTempPath docId) ::
                chunks.map (FileOp.write (stickerTempPath docId)) ++
                  [FileOp.remove (stickerTempPath docId)] =
              (FileOp.create (stickerTempPath docId) ::
                chunks.map (FileOp.write (stickerTempPath docId))) ++
                [FileOp.remove (stickerTempPath docId)] from rfl,
            applyOps_append, applyOps_single_remove]
          constructor
          · intro q hq
            rw [lookupFs_removeFs, if_neg (fun h => hq h.symm)]
            exact (applyOps_create_writes (stickerTempPath docId) chunks fs).1 q hq
          · intro _
            rw [lookupFs_removeFs, if_pos rfl]
      · have hw : downloadStickerFile fs0 rem docId hasAttr fuel =
            (some (stickerBase docId ++
              (match detectImageFormat data with
               | some e => e
               | none => if hasAttr then ".png" else ".webp")),
             .create (stickerTempPath docId) :: ops ++
              [.rename (stickerTempPath docId)
                (stickerBase docId ++
                  (match detectImageFormat data with
                   | some e => e
                   | none => if hasAttr then ".png" else ".webp"))]) := by
          simp [downloadStickerFile, hmiss, hres, hz]
        have hextne :
            (stickerBase docId ++
                (match detectImageFormat data with
                 | some e => e
                 | none => if hasAttr then ".png" else ".webp")) ≠
              stickerTempPath docId := by
          show _ ≠ stickerBase docId ++ "_temp"
          apply string_append_ne
          cases hdet : detectImageFormat data with
          | none =>
              simp only [hdet]
              cases hasAttr <;> decide
          | some e =>
              have hmem := detect_mem data e hdet
              simp only [hdet]
              fin_cases hmem <;> decide
        rw [hw]
        refine ⟨?_, fun f hf => ?_, by simp⟩
        · rw [hops]
          exact writesOnlyTo_shape _ chunks
            [FileOp.rename (stickerTempPath docId) _] (by simp)
        · have hfeq : f = stickerBase docId ++
              (match detectImageFormat data with
               | some e => e
               | none => if hasAttr then ".png" else ".webp") := by
            simpa using hf.symm
          subst hfeq
          refine ⟨hextne, FileOp.create (stickerTempPath docId) :: ops, by simp, ?_⟩
          intro op hop
          rcases List.mem_cons.mp hop with rfl | hop2
          · rfl
          · rw [hops] at hop2
            obtain ⟨c, _, hc⟩ := List.mem_map.mp hop2
            rw [← hc]
            rfl
  | failed =>
      have hops2 : ops = chunks.map (FileOp.write (stickerTempPath docId)) ++
          [FileOp.remove (stickerTempPath docId)] := by
        rw [hops]
        simp
      have hw : downloadStickerFile fs0 rem docId hasAttr fuel =
          (none, .create (stickerTempPath docId) :: ops) := by
        simp [downloadStickerFile, hmiss, hres]
      rw [hw]
      refine ⟨?_, by simp, fun _ fs => ?_⟩
      · rw [hops2]
        exact writesOnlyTo_shape _ chunks [FileOp.remove (stickerTempPath docId)]
          (by simp)
      · rw [hops2,
          show FileOp.create (stickerTempPath docId) ::
              (chunks.map (FileOp.write (stickerTempPath docId)) ++
                [FileOp.remove (stickerTempPath docId)]) =
            (FileOp.create (stickerTempPath docId) ::
              chunks.map (FileOp.write (stickerTempPath docId))) ++
              [FileOp.remove (stickerTempPath docId)] from rfl,
          applyOps_append, applyOps_single_remove]
        constructor
        · intro q hq
          rw [lookupFs_removeFs, if_neg (fun h => hq h.symm)]
          exact (applyOps_create_writes (stickerTempPath docId) chunks fs).1 q hq
        · intro _
          rw [lookupFs_removeFs, if_pos rfl]
  | fuelOut =>
      simp only [if_neg (by simp : ¬ FetchOut.fuelOut = FetchOut.failed),
        List.append_nil] at hops
      have hw : downloadStickerFile fs0 rem docId hasAttr fuel =
          (none, .create (stickerTempPath docId) :: ops) := by
        simp [downloadStickerFile, hmiss, hres]
      rw [hw]
      refine ⟨?_, by simp, fun _ fs => ?_⟩
      · rw [hops]
        have hnil : FileOp.create (stickerTempPath docId) ::
            chunks.map (FileOp.write (stickerTempPath docId)) =
            FileOp.create (stickerTempPath docId) ::
              chunks.map (FileOp.write (stickerTempPath docId)) ++ [] := by simp
        rw [hnil]
        exact writesOnlyTo_shape _ chunks [] (by simp)
      · constructor
        · intro q hq
          rw [hops]
          exact (applyOps_create_writes (stickerTempPath docId) chunks fs).1 q hq
        · intro hart
          exact absurd rfl hart

/-- Spec of `downloadVideoFile`'s file behavior on a cache miss: every write
goes directly to the canonical video path (there is no temp file), no rename
is ever performed, any returned path is that canonical path, and a failed
download leaves every other path untouched and (except for the fuel artifact)
removes the canonical file, so no cache entry remains. -/
theorem video_ops (fs0 : Fs) (rem : Remote) (attrs : List String) (messageID fuel : Nat)
    (hmiss : probeVideoCache fs0 messageID = none) :
    writesOnlyTo (downloadVideoFile fs0 rem attrs messageID fuel).2
        (videoBase messageID ++ videoExt attrs) ∧
      (∀ op ∈ (downloadVideoFile fs0 rem attrs messageID fuel).2,
        isRenameOp op = false) ∧
      (∀ f, (downloadVideoFile fs0 rem attrs messageID fuel).1 = some f →
        f = videoBase messageID ++ videoExt attrs) ∧
      ((downloadVideoFile fs0 rem attrs messageID fuel).1 = none →
        ∀ fs : Fs,
          (∀ q, q ≠ videoBase messageID ++ videoExt attrs →
            lookupFs (applyOps fs (downloadVideoFile fs0 rem attrs messageID fuel).2) q =
              lookupFs fs q) ∧
          ((fetchLoop rem (videoBase messageID ++ videoExt attrs) (1024 * 1024)
              fuel 0 []).1 ≠ .fuelOut →
            lookupFs (applyOps fs (downloadVideoFile fs0 rem attrs messageID fuel).2)
              (videoBase messageID ++ videoExt attrs) = none)) := by
  obtain ⟨chunks, hops, hdone⟩ :=
    fetchLoop_ops_shape rem (videoBase messageID ++ videoExt attrs) (1024 * 1024)
      fuel 0 []
  rcases hres : fetchLoop rem (videoBase messageID ++ videoExt attrs) (1024 * 1024)
    fuel 0 [] with ⟨res, reqs, ops⟩
  simp only [hres] at hops hdone
  have hnorename : ∀ op ∈ FileOp.create (videoBase messageID ++ videoExt attrs) :: ops,
      isRenameOp op = false := by
    intro op hop
    rcases List.mem_cons.mp hop with rfl | hop2
    · rfl
    · rw [hops] at hop2
      rcases List.mem_append.mp hop2 with hm | he
      · obtain ⟨c, _, hc⟩ := List.mem_map.mp hm
        rw [← hc]
        rfl
      · split at he
        · simp only [List.mem_singleton] at he
          rw [he]
          rfl
        · simp at he
  cases res with
  | done data =>
      simp only [if_neg (by simp : ¬ FetchOut.done data = FetchOut.failed),
        List.append_nil] at hops
      by_cases hz : data.length = 0
      · have hw : downloadVideoFile fs0 rem attrs messageID fuel =
            (none, .create (videoBase messageID ++ videoExt attrs) :: ops ++
              [.remove (videoBase messageID ++ videoExt attrs)]) := by
          simp [downloadVideoFile, hmiss, hres, hz]
        rw [hw]
        refine ⟨?_, ?_, by simp, fun _ fs => ?_⟩
        · rw [hops]
          exact writesOnlyTo_shape _ chunks
            [FileOp.remove (videoBase messageID ++ videoExt attrs)] (by simp)
        · intro op hop
          rw [hops] at hop
          rcases List.mem_cons.mp hop with rfl | hop2
          · rfl
          rcases List.mem_append.mp hop2 with hm | he
          · obtain ⟨c, _, hc⟩ := List.mem_map.mp hm
            rw [← hc]
            rfl
          · simp only [List.mem_singleton] at he
            rw [he]
            rfl
        · rw [hops,
            show FileOp.create (videoBase messageID ++ videoExt attrs) ::
                chunks.map (FileOp.write (videoBase messageID ++ videoExt attrs)) ++
                  [FileOp.remove (videoBase messageID ++ videoExt attrs)] =
              (FileOp.create (videoBase messageID ++ videoExt attrs) ::
                chunks.map (FileOp.write (videoBase messageID ++ videoExt attrs))) ++
                [FileOp.remove (videoBase messageID ++ videoExt attrs)] from rfl,
            applyOps_append, applyOps_single_remove]
          constructor
          · intro q hq
            rw [lookupFs_removeFs, if_neg (fun h => hq h.symm)]
            exact (applyOps_create_writes (videoBase messageID ++ videoExt attrs)
              chunks fs).1 q hq
          · intro _
            rw [lookupFs_removeFs, if_pos rfl]
      · have hw : downloadVideoFile fs0 rem attrs messageID fuel =
            (some (videoBase messageID ++ videoExt attrs),
             .create (videoBase messageID ++ videoExt attrs) :: ops) := by
          simp [downloadVideoFile, hmiss, hres, hz]
        rw [hw]
        refine ⟨?_, hnorename, by simp, by simp⟩
        rw [hops]
        have hnil : FileOp.create (videoBase messageID ++ videoExt attrs) ::
            chunks.map (FileOp.write (videoBase messageID ++ videoExt attrs)) =
            FileOp.create (videoBase messageID ++ videoExt attrs) ::
              chunks.map (FileOp.write (videoBase messageID ++ videoExt attrs)) ++ [] := by
          simp
        rw [hnil]
        exact writesOnlyTo_shape _ chunks [] (by simp)
  | failed =>
      have hops2 : ops =
          chunks.map (FileOp.write (videoBase messageID ++ videoExt attrs)) ++
            [FileOp.remove (videoBase messageID ++ videoExt attrs)] := by
        rw [hops]
        simp
      have hw : downloadVideoFile fs0 rem attrs messageID fuel =
          (none, .create (videoBase messageID ++ videoExt attrs) :: ops) := by
        simp [downloadVideoFile, hmiss, hres]
      rw [hw]
      refine ⟨?_, hnorename, by simp, fun _ fs => ?_⟩
      · rw [hops2]
        exact writesOnlyTo_shape _ chunks
          [FileOp.remove (videoBase messageID ++ videoExt attrs)] (by simp)
      · rw [hops2,
          show FileOp.create (videoBase messageID ++ videoExt attrs) ::
              (chunks.map (FileOp.write (videoBase messageID ++ videoExt attrs)) ++
                [FileOp.remove (videoBase messageID ++ videoExt attrs)]) =
            (FileOp.create (videoBase messageID ++ videoExt attrs) ::
              chunks.map (FileOp.write (videoBase messageID ++ videoExt attrs))) ++
              [FileOp.remove (videoBase messageID ++ videoExt attrs)] from rfl,
          applyOps_append, applyOps_single_remove]
        constructor
        · intro q hq
          rw [lookupFs_removeFs, if_neg (fun h => hq h.symm)]
          exact (applyOps_create_writes (videoBase messageID ++ videoExt attrs)
            chunks fs).1 q hq
        · intro _
          rw [lookupFs_removeFs, if_pos rfl]
  | fuelOut =>
      simp only [if_neg (by simp : ¬ FetchOut.fuelOut = FetchOut.failed),
        List.append_nil] at hops
      have hw : downloadVideoFile fs0 rem attrs messageID fuel =
          (none, .create (videoBase messageID ++ videoExt attrs) :: ops) := by
        simp [downloadVideoFile, hmiss, hres]
      rw [hw]
      refine ⟨?_, hnorename, by simp, fun _ fs => ?_⟩
      · rw [hops]
        have hnil : FileOp.create (videoBase messageID ++ videoExt attrs) ::
            chunks.map (FileOp.write (videoBase messageID ++ videoExt attrs)) =
            FileOp.create (videoBase messageID ++ videoExt attrs) ::
              chunks.map (FileOp.write (videoBase messageID ++ videoExt attrs)) ++ [] := by
          simp
        rw [hnil]
        exact writesOnlyTo_shape _ chunks [] (by simp)
      · constructor
        · intro q hq
          rw [hops]
          exact (applyOps_create_writes (videoBase messageID ++ videoExt attrs)
            chunks fs).1 q hq
        · intro hart
          exact absurd rfl hart

/-- C1 counterexample: a successful video download writes its chunk directly
to the canonical published path `/tmp/vi-tg_video_7.mp4` and performs no
rename at all — there is no temp-file-then-rename publication for the video
kind. -/
theorem video_direct_write_cex :
    (downloadVideoFile [] (honestRemote [1, 2, 3]) [] 7 5).1 =
        some "/tmp/vi-tg_video_7.mp4" ∧
      FileOp.write "/tmp/vi-tg_video_7.mp4" [1, 2, 3] ∈
        (downloadVideoFile [] (honestRemote [1, 2, 3]) [] 7 5).2 ∧
      (downloadVideoFile [] (honestRemote [1, 2, 3]) [] 7 5).2.filter isRenameOp =
        [] := by
  refine ⟨by decide, by decide, by decide⟩

/-- C1 (amended): sticker and photo downloads write only to their temp file
and, on success, publish by exactly one final rename of the temp file onto
the returned canonical path (so a lookup of the canonical path sees nothing
or a complete file); video downloads instead write directly to the canonical
path and never rename; for all three kinds, a failed fetch leaves every path
other than the written file untouched and removes the written file itself
(fuel exhaustion of the embedding excepted), so no canonical cache entry
remains after a failure. -/
theorem download_publish_amended :
    (∀ (fs0 : Fs) (rem : Remote) (docId : Nat) (hasAttr : Bool) (fuel : Nat),
      probeStickerCache fs0 docId = none →
      writesOnlyTo (downloadStickerFile fs0 rem docId hasAttr fuel).2
          (stickerTempPath docId) ∧
        (∀ f, (downloadStickerFile fs0 rem docId hasAttr fuel).1 = some f →
          f ≠ stickerTempPath docId ∧
            ∃ pre, (downloadStickerFile fs0 rem docId hasAttr fuel).2 =
                pre ++ [FileOp.rename (stickerTempPath docId) f] ∧
              ∀ op ∈ pre, isRenameOp op = false) ∧
        ((downloadStickerFile fs0 rem docId hasAttr fuel).1 = none →
          ∀ fs : Fs,
            (∀ q, q ≠ stickerTempPath docId →
              lookupFs (applyOps fs (downloadStickerFile fs0 rem docId hasAttr fuel).2)
                  q = lookupFs fs q) ∧
            ((fetchLoop rem (stickerTempPath docId) (512 * 1024) fuel 0 []).1 ≠
                .fuelOut →
              lookupFs (applyOps fs (downloadStickerFile fs0 rem docId hasAttr fuel).2)
                (stickerTempPath docId) = none))) ∧
      (∀ (rem : Remote) (fuel messageID : Nat),
        writesOnlyTo (downloadFileWithLocation rem fuel messageID).2
            (imageTempPath messageID) ∧
          (∀ f, (downloadFileWithLocation rem fuel messageID).1 = some f →
            f ≠ imageTempPath messageID ∧
              ∃ pre, (downloadFileWithLocation rem fuel messageID).2 =
                  pre ++ [FileOp.rename (imageTempPath messageID) f] ∧
                ∀ op ∈ pre, isRenameOp op = false) ∧
          ((downloadFileWithLocation rem fuel messageID).1 = none →
            ∀ fs : Fs,
              (∀ q, q ≠ imageTempPath messageID →
                lookupFs (applyOps fs (downloadFileWithLocation rem fuel messageID).2)
                    q = lookupFs fs q) ∧
              ((fetchLoop rem (imageTempPath messageID) (512 * 1024) fuel 0 []).1 ≠
                  .fuelOut →
                lookupFs (applyOps fs (downloadFileWithLocation rem fuel messageID).2)
                  (imageTempPath messageID) = none))) ∧
      ∀ (fs0 : Fs) (rem : Remote) (attrs : List String) (messageID fuel : Nat),
        probeVideoCache fs0 messageID = none →
        writesOnlyTo (downloadVideoFile fs0 rem attrs messageID fuel).2
            (videoBase messageID ++ videoExt attrs) ∧
          (∀ op ∈ (downloadVideoFile fs0 rem attrs messageID fuel).2,
            isRenameOp op = false) ∧
          (∀ f, (downloadVideoFile fs0 rem attrs messageID fuel).1 = some f →
            f = videoBase messageID ++ videoExt attrs) ∧
          ((downloadVideoFile fs0 rem attrs messageID fuel).1 = none →
            ∀ fs : Fs,
              (∀ q, q ≠ videoBase messageID ++ videoExt attrs →
                lookupFs (applyOps fs (downloadVideoFile fs0 rem attrs messageID fuel).2)
                    q = lookupFs fs q) ∧
              ((fetchLoop rem (videoBase messageID ++ videoExt attrs) (1024 * 1024)
                  fuel 0 []).1 ≠ .fuelOut →
                lookupFs (applyOps fs (downloadVideoFile fs0 rem attrs messageID fuel).2)
                  (videoBase messageID ++ videoExt attrs) = none)) :=
  ⟨sticker_ops, dlwl_ops, video_ops⟩

/-- C1 witness: the amended theorem applied to a 3-byte honestly served
object, for a sticker (id 3) and a video (message 7), on an empty cache. -/
theorem download_publish_amended_w :
    writesOnlyTo (downloadStickerFile [] (honestRemote [1, 2, 3]) 3 false 5).2
        (stickerTempPath 3) ∧
      writesOnlyTo (downloadVideoFile [] (honestRemote [1, 2, 3]) [] 7 5).2
        (videoBase 7 ++ videoExt []) :=
  ⟨(download_publish_amended.1 [] (honestRemote [1, 2, 3]) 3 false 5 (by rfl)).1,
   (download_publish_amended.2.2 [] (honestRemote [1, 2, 3]) [] 7 5 (by rfl)).1⟩

end ViTg
